import Mathlib

/-!
Verification development for the yosys `smtbmc.py` SMT-based bounded model
checker / temporal induction driver (file `backends/smt2/smtbmc.py`).

The driver is modelled as a shallow embedding: every `smt.write`, `smt.check_sat`
and model-query call of the Python source is turned into one structured event in
a trace, and the BMC / induction loops are turned into executable Lean functions
over those traces.  The external SMT solver is modelled by an oracle
`Nat → String` giving the textual answer of the n-th `check_sat` call of the
run (the source only ever compares that answer against the literal `"sat"`).

The constraint-file parser (smtbmc.py lines 144-229) is embedded as an
`Except`-returning function; a Python `assert` failure (AssertionError) or an
`int()` failure (ValueError) becomes an error value that carries exactly the
information the raised exception carries.

The netref resolver `get_constr_expr` / `replace_netref` (lines 232-275) is
embedded at the granularity of regex matches: a constraint expression is a list
of segments, where each netref segment records the three capture groups of
`netref_regex = (^|[( ])\[(-?[0-9]+:|)([^\]]+)\](?=[ )]|$)` (context glyph,
offset field without its trailing colon, net name).
-/

/-- One solver interaction of the driver.  Each constructor corresponds to one
`smt.write`, `smt.check_sat` or model-query site of smtbmc.py:

* `declareFun i`            — `(declare-fun s<i> () <mod>_s)` (lines 525, 571, 597)
* `assertU i`               — `(assert (<mod>_u s<i>))` (lines 526, 572, 598)
* `assertH i`               — `(assert (<mod>_h s<i>))` (lines 527, 573, 599)
* `assertConstrAssumes i`   — `(assert <get_constr_expr constr_assumes i>)` (lines 574, 601)
* `assertInit i`            — `(assert (<mod>_i s<i>))` (line 577)
* `assertIs i`              — `(assert (<mod>_is s<i>))` (line 578)
* `assertNotIs i`           — `(assert (not (<mod>_is s<i>)))` (lines 528, 582)
* `assertT i j`             — `(assert (<mod>_t s<i> s<j>))` (lines 534, 581, 600)
* `assertA i`               — `(assert (<mod>_a s<i>))` (lines 535, 587, 627, 655)
* `assertNotA i`            — `(assert (not (<mod>_a s<i>)))` (line 531)
* `assertConstrAsserts i`   — `(assert <get_constr_expr constr_asserts i>)` (lines 588, 628, 656)
* `assertNotObligation lo hi` — the negated obligation conjunction
  `(assert (not (and (<mod>_a s<lo>) .. (<mod>_a s<hi>) <constr asserts lo..hi>)))`
  (lines 612-613)
* `assertFinalAssumes i`    — `(assert <get_constr_expr constr_assumes i final>)` (line 638)
* `assertNotFinalAsserts i` — `(assert (not <get_constr_expr constr_asserts i final>))` (line 639)
* `push n` / `pop n`        — `(push n)` / `(pop n)` (lines 610, 624, 636, 649)
* `checkSat ans`            — one `smt.check_sat()` call returning the answer `ans`
* `printAnyconsts i`        — model queries issued by `print_anyconsts(i)`
* `printFailedAsserts i final` — model queries issued by `print_failed_asserts(i, final)`
* `writeTrace a b idx`      — model queries issued by `write_trace(a, b, idx)`
* `exitCmd`                 — `(exit)` (line 675) -/
inductive SmtCmd where
  | declareFun : Nat → SmtCmd
  | assertU : Nat → SmtCmd
  | assertH : Nat → SmtCmd
  | assertConstrAssumes : Nat → SmtCmd
  | assertInit : Nat → SmtCmd
  | assertIs : Nat → SmtCmd
  | assertNotIs : Nat → SmtCmd
  | assertT : Nat → Nat → SmtCmd
  | assertA : Nat → SmtCmd
  | assertNotA : Nat → SmtCmd
  | assertConstrAsserts : Nat → SmtCmd
  | assertNotObligation : Nat → Nat → SmtCmd
  | assertFinalAssumes : Nat → SmtCmd
  | assertNotFinalAsserts : Nat → SmtCmd
  | push : Nat → SmtCmd
  | pop : Nat → SmtCmd
  | checkSat : String → SmtCmd
  | printAnyconsts : Nat → SmtCmd
  | printFailedAsserts : Nat → Bool → SmtCmd
  | writeTrace : Nat → Nat → String → SmtCmd
  | exitCmd : SmtCmd
deriving DecidableEq

/-- Run configuration of the driver (smtbmc.py lines 25-37, after getopt).
`constr_final_start` is the value of the global `constr_final_start` produced
by the constraint parser before the driver starts. -/
structure BmcCfg where
  skip_steps : Nat
  step_size : Nat
  num_steps : Nat
  assume_skipped : Option Nat
  final_only : Bool
  gentrace : Bool
  dumpall : Bool
  constr_final_start : Option Nat
deriving DecidableEq

/-- Frame preparation for the cursor frame (smtbmc.py lines 571-582). -/
def frameSetup (step : Nat) : List SmtCmd :=
  [SmtCmd.declareFun step, SmtCmd.assertU step, SmtCmd.assertH step,
   SmtCmd.assertConstrAssumes step] ++
  (if step = 0 then [SmtCmd.assertInit 0, SmtCmd.assertIs 0]
   else [SmtCmd.assertT (step - 1) step, SmtCmd.assertNotIs step])

/-- Events of the skip branch (smtbmc.py lines 584-592): when `assume_skipped`
is set and `step >= assume_skipped`, the module assert conjunction and the
user asserts of the skipped step are assumed. -/
def skipEvents (cfg : BmcCfg) (step : Nat) : List SmtCmd :=
  match cfg.assume_skipped with
  | some k => if k ≤ step then [SmtCmd.assertA step, SmtCmd.assertConstrAsserts step] else []
  | none => []

/-- One window-extension frame (smtbmc.py lines 597-601, loop body for index `i`). -/
def extFrame (step i : Nat) : List SmtCmd :=
  [SmtCmd.declareFun (step + i), SmtCmd.assertU (step + i), SmtCmd.assertH (step + i),
   SmtCmd.assertT (step + i - 1) (step + i), SmtCmd.assertConstrAssumes (step + i)]

/-- Window-extension loop (smtbmc.py lines 594-602): iterates `i`, with `n`
iterations remaining, threading `last` (`last_check_step`). -/
def extendAux (cfg : BmcCfg) (step : Nat) : Nat → Nat → Nat → List SmtCmd × Nat
  | _, 0, last => ([], last)
  | i, n + 1, last =>
      if step + i < cfg.num_steps then
        let r := extendAux cfg step (i + 1) n (step + i)
        (extFrame step i ++ r.1, r.2)
      else
        extendAux cfg step (i + 1) n last

/-- `for i in range(1, step_size)` starting with `last_check_step = step`
(smtbmc.py lines 594-602); returns the emitted events and `last_check_step`. -/
def extendWindow (cfg : BmcCfg) (step : Nat) : List SmtCmd × Nat :=
  extendAux cfg step 1 (cfg.step_size - 1) step

/-- `for i in range(lo, lo+n): assert (a s_i); assert <constr asserts i>`
(smtbmc.py lines 626-628 and 654-656). -/
def commitAsserts (lo : Nat) : Nat → List SmtCmd
  | 0 => []
  | n + 1 => [SmtCmd.assertA lo, SmtCmd.assertConstrAsserts lo] ++ commitAsserts (lo + 1) n

/-- `for i in range(lo, lo+n): print_failed_asserts(i)` (smtbmc.py lines 618-619). -/
def failedAssertsRange (lo : Nat) : Nat → List SmtCmd
  | 0 => []
  | n + 1 => SmtCmd.printFailedAsserts lo false :: failedAssertsRange (lo + 1) n

/-- Events of a passing obligation check window (smtbmc.py lines 610-624,
`check_sat` answering `ans ≠ "sat"`): the `push 1` is matched by `pop 1`. -/
def oblPass (lo hi : Nat) (ans : String) : List SmtCmd :=
  [SmtCmd.push 1, SmtCmd.assertNotObligation lo hi, SmtCmd.checkSat ans, SmtCmd.pop 1]

/-- Events of a failing obligation check window (smtbmc.py lines 610-622,
`check_sat` answering `"sat"`): the driver reports and `break`s before the
`pop 1` of line 624 is reached. -/
def oblFail (lo hi : Nat) (ans : String) : List SmtCmd :=
  [SmtCmd.push 1, SmtCmd.assertNotObligation lo hi, SmtCmd.checkSat ans,
   SmtCmd.printAnyconsts lo] ++ failedAssertsRange lo (hi + 1 - lo) ++
  [SmtCmd.writeTrace 0 (hi + 1) "%"]

/-- Events of a passing final-state check at step `i` (smtbmc.py lines 635-649). -/
def finalPass (i : Nat) (ans : String) : List SmtCmd :=
  [SmtCmd.push 1, SmtCmd.assertFinalAssumes i, SmtCmd.assertNotFinalAsserts i,
   SmtCmd.checkSat ans, SmtCmd.pop 1]

/-- Events of a failing final-state check at step `i` (smtbmc.py lines 635-647):
the inner `break` of line 647 is taken before the `pop 1` of line 649. -/
def finalFail (i : Nat) (ans : String) : List SmtCmd :=
  [SmtCmd.push 1, SmtCmd.assertFinalAssumes i, SmtCmd.assertNotFinalAsserts i,
   SmtCmd.checkSat ans, SmtCmd.printAnyconsts i, SmtCmd.printFailedAsserts i true,
   SmtCmd.writeTrace 0 (i + 1) "%"]

/-- Final-state check loop `for i in range(lo, lo+n)` (smtbmc.py lines 630-649),
with `i < fs` steps skipped by the `continue` of line 633.  Returns the events,
the continue-flag (false when a check answered sat and the loop broke), and the
updated check counter. -/
def finalLoop (fs : Nat) (oracle : Nat → String) (lo : Nat) : Nat → Nat → List SmtCmd × Bool × Nat
  | 0, k => ([], true, k)
  | n + 1, k =>
      if lo < fs then finalLoop fs oracle (lo + 1) n k
      else
        let ans := oracle k
        if ans = "sat" then (finalFail lo ans, false, k + 1)
        else
          let r := finalLoop fs oracle (lo + 1) n (k + 1)
          (finalPass lo ans ++ r.1, r.2.1, r.2.2)

/-- Result of one iteration of the BMC while-loop: events emitted, new cursor
value, new check counter, and whether the loop continues (false exactly when a
`break` leaves the loop with `retstatus = False`). -/
structure IterOut where
  events : List SmtCmd
  next : Nat
  checks : Nat
  ok : Bool
deriving DecidableEq

/-- Commit-asserts plus final-state checks of one BMC iteration (smtbmc.py
lines 626-651), shared by the `final_only` and the ordinary path. -/
def bmcAfterObl (cfg : BmcCfg) (oracle : Nat → String) (step last k : Nat)
    (pre : List SmtCmd) : IterOut :=
  let com := commitAsserts step (last + 1 - step)
  match cfg.constr_final_start with
  | none => ⟨pre ++ com, step + cfg.step_size, k, true⟩
  | some fs =>
      let r := finalLoop fs oracle step (last + 1 - step) k
      ⟨pre ++ com ++ r.1, step + cfg.step_size, r.2.2, r.2.1⟩

/-- One iteration of the BMC while-loop (smtbmc.py lines 570-668), from the
cursor value `step` with `k` check_sat calls already issued. -/
def bmcIter (cfg : BmcCfg) (oracle : Nat → String) (step k : Nat) : IterOut :=
  if step < cfg.skip_steps then
    ⟨frameSetup step ++ skipEvents cfg step, step + 1, k, true⟩
  else
    let ext := extendWindow cfg step
    let last := ext.2
    let base := frameSetup step ++ ext.1
    if cfg.gentrace then
      let ans := oracle k
      if ans = "sat" then
        ⟨base ++ commitAsserts step (last + 1 - step) ++ [SmtCmd.checkSat ans] ++
          (if cfg.dumpall then [SmtCmd.printAnyconsts 0, SmtCmd.writeTrace 0 (last + 1) (toString step)]
           else []),
         step + cfg.step_size, k + 1, true⟩
      else
        ⟨base ++ commitAsserts step (last + 1 - step) ++ [SmtCmd.checkSat ans],
         step + cfg.step_size, k + 1, false⟩
    else
      if cfg.final_only then bmcAfterObl cfg oracle step last k base
      else
        let ans := oracle k
        if ans = "sat" then
          ⟨base ++ oblFail step last ans, step + cfg.step_size, k + 1, false⟩
        else
          bmcAfterObl cfg oracle step last (k + 1) (base ++ oblPass step last ans)

/-- Result of a whole driver run: the event trace, the final `retstatus`, and
the number of check_sat calls issued. -/
structure RunOut where
  events : List SmtCmd
  retstatus : Bool
  checks : Nat
deriving DecidableEq

/-- The BMC while-loop (smtbmc.py lines 568-668), with explicit fuel.  Each
iteration advances the cursor by at least 1 when `step_size ≥ 1`, so any
`fuel ≥ num_steps` runs the loop to completion from cursor 0. -/
def bmcLoop (cfg : BmcCfg) (oracle : Nat → String) : Nat → Nat → Nat → RunOut
  | 0, _, k => ⟨[], true, k⟩
  | fuel + 1, step, k =>
      if step < cfg.num_steps then
        let it := bmcIter cfg oracle step k
        if it.ok then
          let r := bmcLoop cfg oracle fuel it.next it.checks
          ⟨it.events ++ r.events, r.retstatus, r.checks⟩
        else ⟨it.events, false, it.checks⟩
      else ⟨[], true, k⟩

/-- The full BMC / gentrace driver (smtbmc.py lines 567-672): the loop from
`step = 0, retstatus = True`, followed in gentrace mode by the unconditional
`print_anyconsts(0); write_trace(0, num_steps, '%')` of lines 670-672. -/
def bmcRun (cfg : BmcCfg) (oracle : Nat → String) (fuel : Nat) : RunOut :=
  let r := bmcLoop cfg oracle fuel 0 0
  if cfg.gentrace then
    ⟨r.events ++ [SmtCmd.printAnyconsts 0, SmtCmd.writeTrace 0 cfg.num_steps "%"],
     r.retstatus, r.checks⟩
  else r

/-- Frame preparation of the induction loop (smtbmc.py lines 525-535). -/
def tiFrame (cfg : BmcCfg) (step : Nat) : List SmtCmd :=
  [SmtCmd.declareFun step, SmtCmd.assertU step, SmtCmd.assertH step,
   SmtCmd.assertNotIs step] ++
  (if step = cfg.num_steps then [SmtCmd.assertNotA step]
   else [SmtCmd.assertT step (step + 1), SmtCmd.assertA step])

/-- The temporal-induction for-loop (smtbmc.py lines 521-564) over the
descending list of steps, threading `skip_counter` and the check counter.
The skip test `step > num_steps - skip_steps` is Python integer arithmetic,
so it is taken over `Int`.  When the list is exhausted without an unsat
answer, `retstatus` keeps its initial `False`. -/
def tiLoop (cfg : BmcCfg) (oracle : Nat → String) : List Nat → Nat → Nat → RunOut
  | [], _, k => ⟨[], false, k⟩
  | s :: rest, sc, k =>
      let f := tiFrame cfg s
      if (cfg.num_steps : Int) - (cfg.skip_steps : Int) < (s : Int) then
        let r := tiLoop cfg oracle rest sc k
        ⟨f ++ r.events, r.retstatus, r.checks⟩
      else if sc + 1 < cfg.step_size then
        let r := tiLoop cfg oracle rest (sc + 1) k
        ⟨f ++ r.events, r.retstatus, r.checks⟩
      else
        let ans := oracle k
        if ans = "sat" then
          let extra :=
            if s = 0 then
              [SmtCmd.printAnyconsts cfg.num_steps,
               SmtCmd.printFailedAsserts cfg.num_steps false,
               SmtCmd.writeTrace s (cfg.num_steps + 1) "%"]
            else if cfg.dumpall then
              [SmtCmd.printAnyconsts cfg.num_steps,
               SmtCmd.printFailedAsserts cfg.num_steps false,
               SmtCmd.writeTrace s (cfg.num_steps + 1) (toString s)]
            else []
          let r := tiLoop cfg oracle rest 0 (k + 1)
          ⟨f ++ [SmtCmd.checkSat ans] ++ extra ++ r.events, r.retstatus, r.checks⟩
        else
          ⟨f ++ [SmtCmd.checkSat ans], true, k + 1⟩

/-- The full induction driver (smtbmc.py lines 521-564):
`for step in range(num_steps, -1, -1)` with `skip_counter = step_size`. -/
def tiRun (cfg : BmcCfg) (oracle : Nat → String) : RunOut :=
  tiLoop cfg oracle ((List.range (cfg.num_steps + 1)).reverse) cfg.step_size 0

/-- Exit code and solver trace of the whole process.  `exitCode` models the
argument of `sys.exit`. -/
structure MainOut where
  exitCode : Nat
  events : List SmtCmd
deriving DecidableEq

/-- Top-level control flow of smtbmc.py after option parsing:
line 135 (`len(args) != 1` → `usage()` → `sys.exit(1)`), lines 139-141
(`-i` with `--smtc` → `sys.exit(1)`), both before the solver session is
created at line 278; then the driver, `(exit)` (line 675) and
`sys.exit(0 if retstatus else 1)` (line 679). -/
def mainRun (tempind : Bool) (nargs : Nat) (cfg : BmcCfg) (inconstr : List String)
    (oracle : Nat → String) (fuel : Nat) : MainOut :=
  if nargs ≠ 1 then ⟨1, []⟩
  else if tempind = true ∧ inconstr ≠ [] then ⟨1, []⟩
  else
    let r := if tempind then tiRun cfg oracle else bmcRun cfg oracle fuel
    ⟨if r.retstatus then 0 else 1, r.events ++ [SmtCmd.exitCmd]⟩

/-- Contribution of one solver event to the assertion-scope depth. -/
def cmdDepth : SmtCmd → Int
  | SmtCmd.push n => (n : Int)
  | SmtCmd.pop n => -(n : Int)
  | _ => 0

/-- Assertion-scope depth accumulated by a trace (depth 0 at the start of the run). -/
def scopeDepth (evs : List SmtCmd) : Int := (evs.map cmdDepth).sum

/-- The obligation window advertised by an event, if any. -/
def windowOf : SmtCmd → Option (Nat × Nat)
  | SmtCmd.assertNotObligation lo hi => some (lo, hi)
  | _ => none

/-- The list of obligation check windows `[lo, hi]` of a trace, in order. -/
def obligationWindows (evs : List SmtCmd) : List (Nat × Nat) := evs.filterMap windowOf

/-- Erases the solver's textual answers from a trace, keeping everything the
driver wrote and the shape of every check. -/
def eraseAns : SmtCmd → SmtCmd
  | SmtCmd.checkSat _ => SmtCmd.checkSat ""
  | c => c

/-- Specification-side list of obligation windows issued by a completed BMC
run with window width `k` and horizon `n`, starting from cursor `step`. -/
def specWindows (k n : Nat) : Nat → Nat → List (Nat × Nat)
  | 0, _ => []
  | fuel + 1, step =>
      if step < n then (step, min (step + k - 1) (n - 1)) :: specWindows k n fuel (step + k)
      else []

/-! ### Constraint-file parser (smtbmc.py lines 144-229) -/

/-- A key of the constraint tables: an integer step, or the synthetic
`"final-%d"` key of a final-state constraint. -/
inductive ConstrKey where
  | step : Int → ConstrKey
  | finalAt : Nat → ConstrKey
deriving DecidableEq

/-- The constraint database built by the parser: `constr_final_start`,
`constr_asserts` and `constr_assumes`.  The two defaultdicts are modelled as
flat association lists in insertion order; projecting one key preserves the
per-key order of the Python lists. -/
structure ConstrDB where
  final_start : Option Nat
  asserts : List (ConstrKey × String × String)
  assumes : List (ConstrKey × String × String)
deriving DecidableEq

/-- The empty database (smtbmc.py lines 144-146). -/
def dbEmpty : ConstrDB := ⟨none, [], []⟩

/-- What an aborting parse carries.  A failed Python `assert` raises
`AssertionError` with an empty message; `int()` on a malformed literal raises
`ValueError` naming only the literal.  Neither carries the constraint file
name or line number. -/
inductive ParseErr where
  | assertionError : ParseErr
  | valueError : String → ParseErr
deriving DecidableEq

/-- The message of the exception that aborts the run (the AssertionError of a
bare `assert` has no message; the ValueError message names the literal only). -/
def errMessage : ParseErr → String
  | ParseErr.assertionError => ""
  | ParseErr.valueError lit => "invalid literal for int() with base 10: " ++ lit

/-- True when the raw line starts with `#` (smtbmc.py line 156 checks the raw
line, before any whitespace split). -/
def startsWithHash (s : String) : Bool :=
  match s.data with
  | c :: _ => c = '#'
  | [] => false

/-- Python `str.split()` whitespace classes modelled here. -/
def isPyWs (c : Char) : Bool := c = ' ' || c = '\t' || c = '\n' || c = '\r'

/-- Worker for `pySplit`. -/
def pySplitAux : List Char → List Char → List String
  | [], acc => if acc.isEmpty then [] else [String.mk acc.reverse]
  | c :: cs, acc =>
      if isPyWs c then
        if acc.isEmpty then pySplitAux cs []
        else String.mk acc.reverse :: pySplitAux cs []
      else pySplitAux cs (c :: acc)

/-- Python `line.split()`: split on whitespace runs, dropping empty fields. -/
def pySplit (s : String) : List String := pySplitAux s.data []

/-- Worker for `splitOnColon`. -/
def splitCharsOn (sep : Char) : List Char → List Char → List String
  | [], acc => [String.mk acc.reverse]
  | c :: cs, acc =>
      if c = sep then String.mk acc.reverse :: splitCharsOn sep cs []
      else splitCharsOn sep cs (c :: acc)

/-- Python `token.split(":")`. -/
def splitOnColon (s : String) : List String := splitCharsOn ':' s.data []

/-- Decimal digits to a number; `none` when empty or containing a non-digit. -/
def digitsToNat : List Char → Option Nat
  | [] => none
  | cs =>
      if cs.all (fun c => c.isDigit) then
        some (cs.foldl (fun a c => 10 * a + (c.toNat - 48)) 0)
      else none

/-- Python `int(s)` on a token: optional sign followed by decimal digits
(`none` models the ValueError; digit-group underscores are not modelled). -/
def pyInt (s : String) : Option Int :=
  match s.data with
  | '-' :: cs => (digitsToNat cs).map (fun n => -(n : Int))
  | '+' :: cs => (digitsToNat cs).map (fun n => (n : Int))
  | cs => (digitsToNat cs).map (fun n => (n : Int))

/-- `[lo, lo+1, ..., hi]` over `Int` (Python `range(lo, hi+1)`). -/
def intRange (lo hi : Int) : List Int :=
  (List.range (hi + 1 - lo).toNat).map (fun n => lo + n)

/-- Insertion into the `current_states` set, keeping first-insertion order. -/
def insertKey (k : ConstrKey) (l : List ConstrKey) : List ConstrKey :=
  if k ∈ l then l else l ++ [k]

/-- The `final` directive (smtbmc.py lines 169-182): returns the new
`current_states` keys and the new `constr_final_start`.  A bare `final`
assigns 0 unconditionally (line 173); `final -k` takes the minimum with any
prior value (line 178); a non-negative argument fails the `assert i < 0`. -/
def finalDirective (n : Nat) (rest : List String) (fs : Option Nat) :
    Except ParseErr (List ConstrKey × Option Nat) :=
  match rest with
  | [] => Except.ok ((List.range (n + 1)).map ConstrKey.finalAt, some 0)
  | [t] =>
      match pyInt t with
      | none => Except.error (ParseErr.valueError t)
      | some i =>
          if i < 0 then
            Except.ok ((List.range' (-i).toNat (n + 1 - (-i).toNat)).map ConstrKey.finalAt,
              some (match fs with | none => (-i).toNat | some p => min p (-i).toNat))
          else Except.error ParseErr.assertionError
  | _ => Except.error ParseErr.assertionError

/-- The `always` directive (smtbmc.py lines 202-211). -/
def alwaysDirective (n : Nat) (rest : List String) : Except ParseErr (List ConstrKey) :=
  match rest with
  | [] => Except.ok ((intRange 0 n).map ConstrKey.step)
  | [t] =>
      match pyInt t with
      | none => Except.error (ParseErr.valueError t)
      | some i =>
          if i < 0 then Except.ok ((intRange (-i) n).map ConstrKey.step)
          else Except.error ParseErr.assertionError
  | _ => Except.error ParseErr.assertionError

/-- One item of the `state` directive (smtbmc.py lines 186-199): a single
integer, or a range `lo:hi` where `hi` may be `*` (meaning `num_steps`). -/
def stateItemKeys (n : Nat) (token : String) : Except ParseErr (List Int) :=
  match splitOnColon token with
  | [t] =>
      match pyInt t with
      | none => Except.error (ParseErr.valueError t)
      | some i => Except.ok [i]
  | [a, b] =>
      match pyInt a with
      | none => Except.error (ParseErr.valueError a)
      | some lo =>
          if b = "*" then Except.ok (intRange lo (n : Int))
          else
            match pyInt b with
            | none => Except.error (ParseErr.valueError b)
            | some hi => Except.ok (intRange lo hi)
  | _ => Except.error ParseErr.assertionError

/-- The `state` directive (smtbmc.py lines 184-200), folding its items into a
fresh set. -/
def stateDirective (n : Nat) : List String → List ConstrKey → Except ParseErr (List ConstrKey)
  | [], acc => Except.ok acc
  | t :: rest, acc =>
      match stateItemKeys n t with
      | Except.error e => Except.error e
      | Except.ok l =>
          stateDirective n rest (l.foldl (fun a i => insertKey (ConstrKey.step i) a) acc)

/-- Appends one constraint under every active key (smtbmc.py lines 216-217 and
224-225): the stored pair is `("%s:%d" % (fn, current_line), " ".join(tokens[1:]))`. -/
def addConstr (fn : String) (ln : Nat) (rest : List String) (keys : List ConstrKey)
    (tbl : List (ConstrKey × String × String)) : List (ConstrKey × String × String) :=
  tbl ++ keys.map (fun kk => (kk, fn ++ ":" ++ toString ln, String.intercalate " " rest))

/-- Dispatch on the first token of a line (smtbmc.py lines 164-229).  Any
unknown directive falls through to the `assert 0` of line 229; `assert` and
`assume` before any state scope fail the asserts of lines 214 and 222. -/
def parseTokens (n : Nat) (fn : String) (ln : Nat) (toks : List String)
    (cur : Option (List ConstrKey)) (db : ConstrDB) :
    Except ParseErr (Option (List ConstrKey) × ConstrDB) :=
  match toks with
  | [] => Except.ok (cur, db)
  | t :: rest =>
      if t = "initial" then Except.ok (some [ConstrKey.step 0], db)
      else if t = "final" then
        match finalDirective n rest db.final_start with
        | Except.error e => Except.error e
        | Except.ok (keys, fs) => Except.ok (some keys, { db with final_start := fs })
      else if t = "state" then
        match stateDirective n rest [] with
        | Except.error e => Except.error e
        | Except.ok keys => Except.ok (some keys, db)
      else if t = "always" then
        match alwaysDirective n rest with
        | Except.error e => Except.error e
        | Except.ok keys => Except.ok (some keys, db)
      else if t = "assert" then
        match cur with
        | none => Except.error ParseErr.assertionError
        | some keys => Except.ok (cur, { db with asserts := addConstr fn ln rest keys db.asserts })
      else if t = "assume" then
        match cur with
        | none => Except.error ParseErr.assertionError
        | some keys => Except.ok (cur, { db with assumes := addConstr fn ln rest keys db.assumes })
      else Except.error ParseErr.assertionError

/-- One line of a constraint file (smtbmc.py lines 153-229): comment lines are
recognised on the raw text (line 156), then the line is whitespace-split. -/
def parseConstrLine (n : Nat) (fn : String) (ln : Nat) (line : String)
    (cur : Option (List ConstrKey)) (db : ConstrDB) :
    Except ParseErr (Option (List ConstrKey) × ConstrDB) :=
  if startsWithHash line then Except.ok (cur, db)
  else parseTokens n fn ln (pySplit line) cur db

/-- Folds the lines of one file, counting `current_line` from `ln`. -/
def parseFileGo (n : Nat) (fn : String) : List String → Nat → Option (List ConstrKey) →
    ConstrDB → Except ParseErr ConstrDB
  | [], _, _, db => Except.ok db
  | line :: rest, ln, cur, db =>
      match parseConstrLine n fn ln line cur db with
      | Except.error e => Except.error e
      | Except.ok (cur2, db2) => parseFileGo n fn rest (ln + 1) cur2 db2

/-- One constraint file (smtbmc.py lines 148-229): `current_states` starts as
`None` and `current_line` as 0, incremented before each line. -/
def parseConstrFile (n : Nat) (fn : String) (lines : List String) (db : ConstrDB) :
    Except ParseErr ConstrDB :=
  parseFileGo n fn lines 1 none db

/-- All files of `inconstr`, sharing one database (smtbmc.py line 148). -/
def parseAllConstr (n : Nat) : List (String × List String) → ConstrDB →
    Except ParseErr ConstrDB
  | [], db => Except.ok db
  | (fn, lines) :: rest, db =>
      match parseConstrFile n fn lines db with
      | Except.error e => Except.error e
      | Except.ok db2 => parseAllConstr n rest db2

/-- The value contributed by the arguments of one `final` directive: 0 for a
bare `final`, k for `final -k`, nothing when the directive is malformed. -/
def finalDirectiveArgVals (rest : List String) : List Nat :=
  match rest with
  | [] => [0]
  | [x] =>
      match pyInt x with
      | some i => if i < 0 then [(-i).toNat] else []
      | none => []
  | _ => []

/-- The value contributed by one line when it is a `final` directive, in the
words of the specification: 0 for a bare `final`, k for `final -k` (other
lines contribute nothing). -/
def finalValOfLine (line : String) : Option Nat :=
  if startsWithHash line then none
  else
    match pySplit line with
    | [] => none
    | t :: rest =>
        if t = "final" then
          match rest with
          | [] => some 0
          | [x] =>
              match pyInt x with
              | some i => if i < 0 then some (-i).toNat else none
              | none => none
          | _ => none
        else none

/-- Values contributed by the `final` directives of a file. -/
def finalDirectiveVals (lines : List String) : List Nat :=
  lines.filterMap finalValOfLine

/-- Final-directive values of a whole file list. -/
def finalDirectiveValsAll (files : List (String × List String)) : List Nat :=
  (files.map (fun f => finalDirectiveVals f.2)).flatten

/-- One accumulation step of `constr_final_start` as a minimum. -/
def minUpd (fs : Option Nat) (v : Nat) : Option Nat :=
  match fs with
  | none => some v
  | some p => some (min p v)

/-- Folded minimum over a list of directive values. -/
def minFold (fs : Option Nat) (vals : List Nat) : Option Nat :=
  vals.foldl minUpd fs

/-! ### Netref resolver (smtbmc.py lines 232-275) -/

/-- One segment of a constraint expression, at the granularity of the matches
of `netref_regex`: plain text, or a netref match with its context glyph
(capture group 1: empty, `(` or a space), its offset field (capture group 2
without the trailing colon: `none` for the empty field, `some (true, k)` for
`-k`, `some (false, k)` for `k`), and its net name (capture group 3). -/
inductive ConstrSeg where
  | text : String → ConstrSeg
  | netref : String → Option (Bool × Nat) → String → ConstrSeg

/-- The step selected by `replace_netref` (smtbmc.py lines 242-250): an empty
offset field resolves at the home step; a field with a leading minus adds the
(negative) parsed offset to the home step; otherwise the parsed value is the
absolute step. -/
def resolveNetrefStep (state : Int) : Option (Bool × Nat) → Int
  | none => state
  | some (true, k) => state + -(k : Int)
  | some (false, k) => (k : Int)

/-- Rendering of one segment: `replace_netref` returns
`match.group(1) + smt.net_expr(topmod, "s%d" % st, path)` (line 254); the
external `net_expr`/`get_path` pair is abstracted as `netExpr`. -/
def renderSeg (netExpr : Int → String → String) (state : Int) : ConstrSeg → String
  | ConstrSeg.text s => s
  | ConstrSeg.netref g off name => g ++ netExpr (resolveNetrefStep state off) name

/-- `netref_regex.sub(replace_netref, expr)` (smtbmc.py line 258) over the
match decomposition of the expression. -/
def substNetrefs (netExpr : Int → String → String) (state : Int)
    (segs : List ConstrSeg) : String :=
  String.join (segs.map (renderSeg netExpr state))

/-! ### Scope-depth lemmas -/

theorem scopeDepth_nil : scopeDepth [] = 0 := rfl

theorem scopeDepth_cons (e : SmtCmd) (l : List SmtCmd) :
    scopeDepth (e :: l) = cmdDepth e + scopeDepth l := by
  simp [scopeDepth]

theorem scopeDepth_append (a b : List SmtCmd) :
    scopeDepth (a ++ b) = scopeDepth a + scopeDepth b := by
  simp [scopeDepth]

theorem scopeDepth_frameSetup (s : Nat) : scopeDepth (frameSetup s) = 0 := by
  by_cases h : s = 0 <;>
    simp [frameSetup, h, scopeDepth_cons, scopeDepth_nil, cmdDepth]

theorem scopeDepth_skipEvents (cfg : BmcCfg) (s : Nat) :
    scopeDepth (skipEvents cfg s) = 0 := by
  cases h : cfg.assume_skipped with
  | none => simp [skipEvents, h, scopeDepth_nil]
  | some k =>
      by_cases h2 : k ≤ s <;>
        simp [skipEvents, h, h2, scopeDepth_cons, scopeDepth_nil, cmdDepth]

theorem scopeDepth_extendAux (cfg : BmcCfg) (step : Nat) (n : Nat) :
    ∀ i last, scopeDepth (extendAux cfg step i n last).1 = 0 := by
  induction n with
  | zero => intro i last; simp [extendAux, scopeDepth_nil]
  | succ m ih =>
      intro i last
      by_cases h : step + i < cfg.num_steps
      · simp [extendAux, h, scopeDepth_append, ih, extFrame, scopeDepth_cons,
              scopeDepth_nil, cmdDepth]
      · simp [extendAux, h, ih]

theorem scopeDepth_commitAsserts (n : Nat) :
    ∀ lo, scopeDepth (commitAsserts lo n) = 0 := by
  induction n with
  | zero => intro lo; simp [commitAsserts, scopeDepth_nil]
  | succ m ih =>
      intro lo
      simp [commitAsserts, scopeDepth_cons, scopeDepth_nil, cmdDepth, ih]

theorem scopeDepth_failedAssertsRange (n : Nat) :
    ∀ lo, scopeDepth (failedAssertsRange lo n) = 0 := by
  induction n with
  | zero => intro lo; simp [failedAssertsRange, scopeDepth_nil]
  | succ m ih =>
      intro lo
      simp [failedAssertsRange, scopeDepth_cons, cmdDepth, ih]

theorem scopeDepth_oblPass (lo hi : Nat) (ans : String) :
    scopeDepth (oblPass lo hi ans) = 0 := by
  simp [oblPass, scopeDepth_cons, scopeDepth_nil, cmdDepth]

theorem scopeDepth_oblFail (lo hi : Nat) (ans : String) :
    scopeDepth (oblFail lo hi ans) = 1 := by
  simp [oblFail, scopeDepth_append, scopeDepth_cons, scopeDepth_nil, cmdDepth,
        scopeDepth_failedAssertsRange]

theorem scopeDepth_finalPass (i : Nat) (ans : String) :
    scopeDepth (finalPass i ans) = 0 := by
  simp [finalPass, scopeDepth_cons, scopeDepth_nil, cmdDepth]

theorem scopeDepth_finalFail (i : Nat) (ans : String) :
    scopeDepth (finalFail i ans) = 1 := by
  simp [finalFail, scopeDepth_cons, scopeDepth_nil, cmdDepth]

theorem scopeDepth_finalLoop (fs : Nat) (oracle : Nat → String) (n : Nat) :
    ∀ lo k, scopeDepth (finalLoop fs oracle lo n k).1 =
      if (finalLoop fs oracle lo n k).2.1 then 0 else 1 := by
  induction n with
  | zero => intro lo k; simp [finalLoop, scopeDepth_nil]
  | succ m ih =>
      intro lo k
      by_cases h1 : lo < fs
      · simp [finalLoop, h1, ih]
      · by_cases h2 : oracle k = "sat"
        · simp [finalLoop, h1, h2, scopeDepth_finalFail]
        · simp [finalLoop, h1, h2, scopeDepth_append, ih, scopeDepth_finalPass]

theorem scopeDepth_bmcAfterObl (cfg : BmcCfg) (oracle : Nat → String)
    (step last k : Nat) (pre : List SmtCmd) :
    scopeDepth (bmcAfterObl cfg oracle step last k pre).events =
      scopeDepth pre +
        (if (bmcAfterObl cfg oracle step last k pre).ok then 0 else 1) := by
  cases h : cfg.constr_final_start with
  | none => simp [bmcAfterObl, h, scopeDepth_append, scopeDepth_commitAsserts]
  | some fs =>
      simp [bmcAfterObl, h, scopeDepth_append, scopeDepth_commitAsserts,
            scopeDepth_finalLoop]

theorem scopeDepth_bmcIter (cfg : BmcCfg) (oracle : Nat → String) (step k : Nat) :
    scopeDepth (bmcIter cfg oracle step k).events =
      if (bmcIter cfg oracle step k).ok || cfg.gentrace then 0 else 1 := by
  by_cases hskip : step < cfg.skip_steps
  · simp [bmcIter, hskip, scopeDepth_append, scopeDepth_frameSetup, scopeDepth_skipEvents]
  · by_cases hg : cfg.gentrace
    · by_cases hs : oracle k = "sat"
      · by_cases hd : cfg.dumpall <;>
          simp [bmcIter, hskip, hg, hs, hd, scopeDepth_append, scopeDepth_frameSetup,
                extendWindow, scopeDepth_extendAux, scopeDepth_commitAsserts,
                scopeDepth_cons, scopeDepth_nil, cmdDepth]
      · simp [bmcIter, hskip, hg, hs, scopeDepth_append, scopeDepth_frameSetup,
              extendWindow, scopeDepth_extendAux, scopeDepth_commitAsserts,
              scopeDepth_cons, scopeDepth_nil, cmdDepth]
    · by_cases hf : cfg.final_only
      · simp [bmcIter, hskip, hg, hf, scopeDepth_bmcAfterObl, scopeDepth_append,
              scopeDepth_frameSetup, extendWindow, scopeDepth_extendAux]
      · by_cases hs : oracle k = "sat"
        · simp [bmcIter, hskip, hg, hf, hs, scopeDepth_append, scopeDepth_frameSetup,
                extendWindow, scopeDepth_extendAux, scopeDepth_oblFail]
        · simp [bmcIter, hskip, hg, hf, hs, scopeDepth_bmcAfterObl, scopeDepth_append,
                scopeDepth_frameSetup, extendWindow, scopeDepth_extendAux, scopeDepth_oblPass]

theorem scopeDepth_bmcLoop (cfg : BmcCfg) (oracle : Nat → String) (fuel : Nat) :
    ∀ step k, scopeDepth (bmcLoop cfg oracle fuel step k).events =
      if (bmcLoop cfg oracle fuel step k).retstatus || cfg.gentrace then 0 else 1 := by
  induction fuel with
  | zero => intro step k; simp [bmcLoop, scopeDepth_nil]
  | succ m ih =>
      intro step k
      by_cases hlt : step < cfg.num_steps
      · by_cases hok : (bmcIter cfg oracle step k).ok
        · simp [bmcLoop, hlt, hok, scopeDepth_append, ih, scopeDepth_bmcIter]
        · simp [bmcLoop, hlt, hok, scopeDepth_bmcIter]
      · simp [bmcLoop, hlt, scopeDepth_nil]

/-- Claim C1: the specification asserts that the `push 1` before a negated
obligation is matched by exactly one `pop 1` on every return path, including
the failure path.  This is false: at skip 0, step size 1, horizon 1, with the
solver answering sat at the only check, the driver breaks out of the loop at
line 622 before the `pop 1` of line 624, and the run ends at scope depth 1. -/
theorem push_without_pop_on_failure :
    scopeDepth (bmcRun ⟨0, 1, 1, none, false, false, false, none⟩
      (fun _ => "sat") 1).events = 1 := by decide

/-- Claim C1 (amended): in BMC mode every check window restores the solver's
scope depth on the unsat path, but a sat answer aborts the loop inside the
pushed scope without popping (lines 622 and 647 break before the pop); hence a
run ends at depth 0 exactly when it succeeded (or ran in gentrace mode, which
never pushes), and at depth 1 when an obligation or final-state check failed. -/
theorem scope_depth_of_run (cfg : BmcCfg) (oracle : Nat → String) (fuel : Nat) :
    scopeDepth (bmcRun cfg oracle fuel).events =
      if (bmcRun cfg oracle fuel).retstatus || cfg.gentrace then 0 else 1 := by
  by_cases hg : cfg.gentrace <;>
    simp [bmcRun, hg, scopeDepth_append, scopeDepth_bmcLoop, scopeDepth_cons,
          scopeDepth_nil, cmdDepth]

/-- Claim C2: the specification requires `¬is(s_i)` to be asserted for every
frame with i > 0, including window-extension frames.  The code does not do so:
with step size 2 and horizon 2, the extension frame `s1` is declared (line 597)
and constrained with u, h, t and assumptions (lines 598-601), but no
`(assert (not (_is s1)))` is ever issued — line 582 runs only for cursor
frames.  The initial marker handling for cursor frames is as claimed. -/
theorem extension_frame_missing_not_is :
    SmtCmd.declareFun 1 ∈
      (bmcRun ⟨0, 2, 2, none, false, false, false, none⟩ (fun _ => "unsat") 2).events ∧
    SmtCmd.assertIs 0 ∈
      (bmcRun ⟨0, 2, 2, none, false, false, false, none⟩ (fun _ => "unsat") 2).events ∧
    SmtCmd.assertNotIs 1 ∉
      (bmcRun ⟨0, 2, 2, none, false, false, false, none⟩ (fun _ => "unsat") 2).events := by
  decide

/-- Claim C5: netref resolution semantics of `replace_netref`.  For a token
with empty offset field the net is resolved at the home step; a field with a
leading minus (`-k:`) resolves at `state - k`; a non-negative field (`k:`)
resolves at the absolute step `k`; in each case the context glyph (capture
group 1) is preserved in front of the substituted expression. -/
theorem netref_resolution_semantics (netExpr : Int → String → String) (state : Int)
    (g name : String) (k : Nat) :
    substNetrefs netExpr state [ConstrSeg.netref g none name] = g ++ netExpr state name ∧
    substNetrefs netExpr state [ConstrSeg.netref g (some (true, k)) name] =
      g ++ netExpr (state - (k : Int)) name ∧
    substNetrefs netExpr state [ConstrSeg.netref g (some (false, k)) name] =
      g ++ netExpr ((k : Int)) name := by
  refine ⟨?_, ?_, ?_⟩ <;>
    simp [substNetrefs, renderSeg, resolveNetrefStep, String.join, Int.sub_eq_add_neg]

/-- Claim C10: in gentrace mode the driver runs `print_anyconsts(0)` and
`write_trace(0, num_steps, '%')` unconditionally after the loop (lines
670-672), including after the "No solution found" break of lines 659-662 —
so model queries are issued after a non-sat check.  With a solver that never
answers sat and a nonempty horizon, the loop fails at the first window and the
dump still runs. -/
theorem gentrace_unconditional_dump (cfg : BmcCfg) (oracle : Nat → String) (fuel : Nat) :
    cfg.gentrace = true →
    (∃ pre, (bmcRun cfg oracle fuel).events =
        pre ++ [SmtCmd.printAnyconsts 0, SmtCmd.writeTrace 0 cfg.num_steps "%"]) ∧
    (cfg.skip_steps = 0 → 1 ≤ cfg.num_steps → 1 ≤ fuel → (∀ j, oracle j ≠ "sat") →
      (bmcRun cfg oracle fuel).retstatus = false) := by
  intro hg
  constructor
  · exact ⟨(bmcLoop cfg oracle fuel 0 0).events, by simp [bmcRun, hg]⟩
  · intro hskip hn hfuel hns
    cases fuel with
    | zero => exact absurd hfuel (by simp)
    | succ m =>
        have h0 : (0 : Nat) < cfg.num_steps := hn
        simp [bmcRun, hg, bmcLoop, h0, bmcIter, hskip, hns 0]

/-! ### Which checks answered sat: membership lemmas -/

theorem checkSat_not_mem_frameSetup (s : String) (a : Nat) :
    SmtCmd.checkSat s ∉ frameSetup a := by
  by_cases h : a = 0 <;> simp [frameSetup, h]

theorem checkSat_not_mem_skipEvents (s : String) (cfg : BmcCfg) (a : Nat) :
    SmtCmd.checkSat s ∉ skipEvents cfg a := by
  cases h : cfg.assume_skipped with
  | none => simp [skipEvents, h]
  | some k => by_cases h2 : k ≤ a <;> simp [skipEvents, h, h2]

theorem checkSat_not_mem_extendAux (cfg : BmcCfg) (step : Nat) (s : String) (n : Nat) :
    ∀ i last, SmtCmd.checkSat s ∉ (extendAux cfg step i n last).1 := by
  induction n with
  | zero => intro i last; simp [extendAux]
  | succ m ih =>
      intro i last
      by_cases h : step + i < cfg.num_steps
      · simp [extendAux, h, extFrame, ih]
      · simp [extendAux, h, ih]

theorem checkSat_not_mem_commitAsserts (s : String) (n : Nat) :
    ∀ lo, SmtCmd.checkSat s ∉ commitAsserts lo n := by
  induction n with
  | zero => intro lo; simp [commitAsserts]
  | succ m ih => intro lo; simp [commitAsserts, ih]

theorem checkSat_not_mem_failedAssertsRange (s : String) (n : Nat) :
    ∀ lo, SmtCmd.checkSat s ∉ failedAssertsRange lo n := by
  induction n with
  | zero => intro lo; simp [failedAssertsRange]
  | succ m ih => intro lo; simp [failedAssertsRange, ih]

theorem checkSat_mem_oblPass (s ans : String) (lo hi : Nat) :
    SmtCmd.checkSat s ∈ oblPass lo hi ans ↔ s = ans := by
  simp [oblPass]

theorem checkSat_mem_oblFail (s ans : String) (lo hi : Nat) :
    SmtCmd.checkSat s ∈ oblFail lo hi ans ↔ s = ans := by
  simp [oblFail, checkSat_not_mem_failedAssertsRange]

theorem checkSat_mem_finalPass (s ans : String) (i : Nat) :
    SmtCmd.checkSat s ∈ finalPass i ans ↔ s = ans := by
  simp [finalPass]

theorem checkSat_mem_finalFail (s ans : String) (i : Nat) :
    SmtCmd.checkSat s ∈ finalFail i ans ↔ s = ans := by
  simp [finalFail]

theorem checkSat_sat_mem_finalLoop (fs : Nat) (oracle : Nat → String) (n : Nat) :
    ∀ lo k, SmtCmd.checkSat "sat" ∈ (finalLoop fs oracle lo n k).1 ↔
      (finalLoop fs oracle lo n k).2.1 = false := by
  induction n with
  | zero => intro lo k; simp [finalLoop]
  | succ m ih =>
      intro lo k
      by_cases h1 : lo < fs
      · simp [finalLoop, h1, ih]
      · by_cases h2 : oracle k = "sat"
        · simp [finalLoop, h1, h2, checkSat_mem_finalFail]
        · simp [finalLoop, h1, h2, checkSat_mem_finalPass, ih, h2, Ne.symm h2]

theorem checkSat_sat_mem_bmcAfterObl (cfg : BmcCfg) (oracle : Nat → String)
    (step last k : Nat) (pre : List SmtCmd)
    (hpre : SmtCmd.checkSat "sat" ∉ pre) :
    SmtCmd.checkSat "sat" ∈ (bmcAfterObl cfg oracle step last k pre).events ↔
      (bmcAfterObl cfg oracle step last k pre).ok = false := by
  cases h : cfg.constr_final_start with
  | none => simp [bmcAfterObl, h, hpre, checkSat_not_mem_commitAsserts]
  | some fs =>
      simp [bmcAfterObl, h, hpre, checkSat_not_mem_commitAsserts,
            checkSat_sat_mem_finalLoop]

theorem bmcIter_eq_skip (cfg : BmcCfg) (oracle : Nat → String) (step k : Nat)
    (hskip : step < cfg.skip_steps) :
    bmcIter cfg oracle step k =
      ⟨frameSetup step ++ skipEvents cfg step, step + 1, k, true⟩ := by
  simp [bmcIter, hskip]

theorem bmcIter_eq_gentrace_sat (cfg : BmcCfg) (oracle : Nat → String) (step k : Nat)
    (hskip : ¬ step < cfg.skip_steps) (hg : cfg.gentrace = true)
    (hs : oracle k = "sat") :
    bmcIter cfg oracle step k =
      ⟨frameSetup step ++ (extendWindow cfg step).1 ++
        commitAsserts step ((extendWindow cfg step).2 + 1 - step) ++
        [SmtCmd.checkSat (oracle k)] ++
        (if cfg.dumpall then
          [SmtCmd.printAnyconsts 0,
           SmtCmd.writeTrace 0 ((extendWindow cfg step).2 + 1) (toString step)]
         else []),
       step + cfg.step_size, k + 1, true⟩ := by
  simp [bmcIter, hskip, hg, hs]

theorem bmcIter_eq_gentrace_fail (cfg : BmcCfg) (oracle : Nat → String) (step k : Nat)
    (hskip : ¬ step < cfg.skip_steps) (hg : cfg.gentrace = true)
    (hs : oracle k ≠ "sat") :
    bmcIter cfg oracle step k =
      ⟨frameSetup step ++ (extendWindow cfg step).1 ++
        commitAsserts step ((extendWindow cfg step).2 + 1 - step) ++
        [SmtCmd.checkSat (oracle k)],
       step + cfg.step_size, k + 1, false⟩ := by
  simp [bmcIter, hskip, hg, hs]

theorem bmcIter_eq_final_only (cfg : BmcCfg) (oracle : Nat → String) (step k : Nat)
    (hskip : ¬ step < cfg.skip_steps) (hg : cfg.gentrace = false)
    (hf : cfg.final_only = true) :
    bmcIter cfg oracle step k =
      bmcAfterObl cfg oracle step (extendWindow cfg step).2 k
        (frameSetup step ++ (extendWindow cfg step).1) := by
  simp [bmcIter, hskip, hg, hf]

theorem bmcIter_eq_obl_fail (cfg : BmcCfg) (oracle : Nat → String) (step k : Nat)
    (hskip : ¬ step < cfg.skip_steps) (hg : cfg.gentrace = false)
    (hf : cfg.final_only = false) (hs : oracle k = "sat") :
    bmcIter cfg oracle step k =
      ⟨frameSetup step ++ (extendWindow cfg step).1 ++
        oblFail step (extendWindow cfg step).2 (oracle k),
       step + cfg.step_size, k + 1, false⟩ := by
  simp [bmcIter, hskip, hg, hf, hs]

theorem bmcIter_eq_obl_pass (cfg : BmcCfg) (oracle : Nat → String) (step k : Nat)
    (hskip : ¬ step < cfg.skip_steps) (hg : cfg.gentrace = false)
    (hf : cfg.final_only = false) (hs : oracle k ≠ "sat") :
    bmcIter cfg oracle step k =
      bmcAfterObl cfg oracle step (extendWindow cfg step).2 (k + 1)
        (frameSetup step ++ (extendWindow cfg step).1 ++
          oblPass step (extendWindow cfg step).2 (oracle k)) := by
  simp [bmcIter, hskip, hg, hf, hs]

theorem checkSat_sat_mem_bmcIter (cfg : BmcCfg) (oracle : Nat → String) (step k : Nat)
    (hg : cfg.gentrace = false) :
    SmtCmd.checkSat "sat" ∈ (bmcIter cfg oracle step k).events ↔
      (bmcIter cfg oracle step k).ok = false := by
  by_cases hskip : step < cfg.skip_steps
  · simp [bmcIter_eq_skip cfg oracle step k hskip,
          checkSat_not_mem_frameSetup, checkSat_not_mem_skipEvents]
  · by_cases hf : cfg.final_only
    · rw [bmcIter_eq_final_only cfg oracle step k hskip hg hf]
      exact checkSat_sat_mem_bmcAfterObl _ _ _ _ _ _
        (by simp [checkSat_not_mem_frameSetup, extendWindow, checkSat_not_mem_extendAux])
    · by_cases hs : oracle k = "sat"
      · rw [bmcIter_eq_obl_fail cfg oracle step k hskip hg (by simpa using hf) hs]
        simp [checkSat_not_mem_frameSetup, extendWindow, checkSat_not_mem_extendAux,
              checkSat_mem_oblFail, hs]
      · rw [bmcIter_eq_obl_pass cfg oracle step k hskip hg (by simpa using hf) hs]
        exact checkSat_sat_mem_bmcAfterObl _ _ _ _ _ _
          (by simp [checkSat_not_mem_frameSetup, extendWindow, checkSat_not_mem_extendAux,
                    checkSat_mem_oblPass, hs, Ne.symm hs])

theorem bmcLoop_fail_iff_sat (cfg : BmcCfg) (oracle : Nat → String) (fuel : Nat)
    (hg : cfg.gentrace = false) :
    ∀ step k, (bmcLoop cfg oracle fuel step k).retstatus = false ↔
      SmtCmd.checkSat "sat" ∈ (bmcLoop cfg oracle fuel step k).events := by
  induction fuel with
  | zero => intro step k; simp [bmcLoop]
  | succ m ih =>
      intro step k
      by_cases hlt : step < cfg.num_steps
      · by_cases hok : (bmcIter cfg oracle step k).ok
        · have hnot : SmtCmd.checkSat "sat" ∉ (bmcIter cfg oracle step k).events := by
            rw [checkSat_sat_mem_bmcIter cfg oracle step k hg]
            simp [hok]
          simp [bmcLoop, hlt, hok, hnot, ih]
        · have hmem : SmtCmd.checkSat "sat" ∈ (bmcIter cfg oracle step k).events := by
            rw [checkSat_sat_mem_bmcIter cfg oracle step k hg]
            simp [Bool.not_eq_true] at hok
            exact hok
          simp [bmcLoop, hlt, hok, hmem]
      · simp [bmcLoop, hlt]

theorem bmcRun_fail_iff_sat (cfg : BmcCfg) (oracle : Nat → String) (fuel : Nat)
    (hg : cfg.gentrace = false) :
    (bmcRun cfg oracle fuel).retstatus = false ↔
      SmtCmd.checkSat "sat" ∈ (bmcRun cfg oracle fuel).events := by
  simp [bmcRun, hg, bmcLoop_fail_iff_sat cfg oracle fuel hg]

/-- Claim C8: exit-code semantics.  With a bad argument count the process
exits 1 from `usage()` (line 135) before anything else; `-i` together with
`--smtc` exits 1 at line 141, in both cases before the solver session of line
278 is created (the solver trace is empty).  Otherwise the process exits with
`sys.exit(0 if retstatus else 1)` (line 679), and in BMC mode `retstatus` is
false exactly when some `check_sat` of the run answered sat (an assertion or
final-state violation). -/
theorem exit_code_semantics (tempind : Bool) (nargs : Nat) (cfg : BmcCfg)
    (inconstr : List String) (oracle : Nat → String) (fuel : Nat) :
    (nargs ≠ 1 → mainRun tempind nargs cfg inconstr oracle fuel = ⟨1, []⟩) ∧
    (tempind = true → inconstr ≠ [] →
      mainRun tempind nargs cfg inconstr oracle fuel = ⟨1, []⟩) ∧
    (nargs = 1 → ¬(tempind = true ∧ inconstr ≠ []) →
      ((mainRun tempind nargs cfg inconstr oracle fuel).exitCode = 0 ↔
        (if tempind then tiRun cfg oracle else bmcRun cfg oracle fuel).retstatus = true)) ∧
    (cfg.gentrace = false →
      ((bmcRun cfg oracle fuel).retstatus = false ↔
        SmtCmd.checkSat "sat" ∈ (bmcRun cfg oracle fuel).events)) := by
  refine ⟨?_, ?_, ?_, ?_⟩
  · intro h; simp [mainRun, h]
  · intro h1 h2
    by_cases hn : nargs = 1
    · simp [mainRun, hn, h1, h2]
    · simp [mainRun, hn]
  · intro hn hni
    simp only [mainRun]
    rw [if_neg (by simp [hn]), if_neg hni]
    cases h : (if tempind then tiRun cfg oracle else bmcRun cfg oracle fuel).retstatus <;>
      simp [h]
  · intro hg
    exact bmcRun_fail_iff_sat cfg oracle fuel hg

theorem exit_code_semantics_witness :
    (mainRun false 1 ⟨0, 1, 1, none, false, false, false, none⟩ []
      (fun _ => "unsat") 1).exitCode = 0 :=
  ((exit_code_semantics false 1 ⟨0, 1, 1, none, false, false, false, none⟩ []
      (fun _ => "unsat") 1).2.2.1 rfl (by simp)).mpr (by decide)

theorem gentrace_unconditional_dump_witness :
    (bmcRun ⟨0, 1, 2, none, false, true, false, none⟩ (fun _ => "unsat") 2).retstatus = false :=
  (gentrace_unconditional_dump ⟨0, 1, 2, none, false, true, false, none⟩
      (fun _ => "unsat") 2 rfl).2 rfl (by decide) (by decide) (fun j => by decide)

/-! ### Oracle congruence: the driver inspects only whether an answer is "sat" -/

theorem eraseAns_frameSetup (s : Nat) : (frameSetup s).map eraseAns = frameSetup s := by
  by_cases h : s = 0 <;> simp [frameSetup, h, eraseAns]

theorem eraseAns_skipEvents (cfg : BmcCfg) (s : Nat) :
    (skipEvents cfg s).map eraseAns = skipEvents cfg s := by
  cases h : cfg.assume_skipped with
  | none => simp [skipEvents, h]
  | some k => by_cases h2 : k ≤ s <;> simp [skipEvents, h, h2, eraseAns]

theorem eraseAns_extendAux (cfg : BmcCfg) (step : Nat) (n : Nat) :
    ∀ i last, ((extendAux cfg step i n last).1).map eraseAns = (extendAux cfg step i n last).1 := by
  induction n with
  | zero => intro i last; simp [extendAux]
  | succ m ih =>
      intro i last
      by_cases h : step + i < cfg.num_steps
      · simp [extendAux, h, extFrame, eraseAns, ih]
      · simp [extendAux, h, ih]

theorem eraseAns_commitAsserts (n : Nat) :
    ∀ lo, (commitAsserts lo n).map eraseAns = commitAsserts lo n := by
  induction n with
  | zero => intro lo; simp [commitAsserts]
  | succ m ih => intro lo; simp [commitAsserts, eraseAns, ih]

theorem eraseAns_failedAssertsRange (n : Nat) :
    ∀ lo, (failedAssertsRange lo n).map eraseAns = failedAssertsRange lo n := by
  induction n with
  | zero => intro lo; simp [failedAssertsRange]
  | succ m ih => intro lo; simp [failedAssertsRange, eraseAns, ih]

theorem eraseAns_oblPass (lo hi : Nat) (a b : String) :
    (oblPass lo hi a).map eraseAns = (oblPass lo hi b).map eraseAns := by
  simp [oblPass, eraseAns]

theorem eraseAns_oblFail (lo hi : Nat) (a b : String) :
    (oblFail lo hi a).map eraseAns = (oblFail lo hi b).map eraseAns := by
  simp [oblFail, eraseAns, eraseAns_failedAssertsRange]

theorem eraseAns_finalPass (i : Nat) (a b : String) :
    (finalPass i a).map eraseAns = (finalPass i b).map eraseAns := by
  simp [finalPass, eraseAns]

theorem eraseAns_finalFail (i : Nat) (a b : String) :
    (finalFail i a).map eraseAns = (finalFail i b).map eraseAns := by
  simp [finalFail, eraseAns]

theorem finalLoop_oracle_congr (fs : Nat) (o1 o2 : Nat → String)
    (h : ∀ j, (o1 j = "sat") ↔ (o2 j = "sat")) (n : Nat) :
    ∀ lo k,
      ((finalLoop fs o1 lo n k).1).map eraseAns = ((finalLoop fs o2 lo n k).1).map eraseAns ∧
      (finalLoop fs o1 lo n k).2.1 = (finalLoop fs o2 lo n k).2.1 ∧
      (finalLoop fs o1 lo n k).2.2 = (finalLoop fs o2 lo n k).2.2 := by
  induction n with
  | zero => intro lo k; simp [finalLoop]
  | succ m ih =>
      intro lo k
      by_cases h1 : lo < fs
      · simpa [finalLoop, h1] using ih (lo + 1) k
      · by_cases hs : o1 k = "sat"
        · have hs2 : o2 k = "sat" := (h k).mp hs
          simp [finalLoop, h1, hs, hs2, eraseAns_finalFail lo (o1 k) (o2 k)]
        · have hs2 : ¬ o2 k = "sat" := fun hc => hs ((h k).mpr hc)
          obtain ⟨he, hf, hc⟩ := ih (lo + 1) (k + 1)
          simp [finalLoop, h1, hs, hs2, he, hf, hc,
                eraseAns_finalPass lo (o1 k) (o2 k)]

theorem bmcAfterObl_oracle_congr (cfg : BmcCfg) (o1 o2 : Nat → String)
    (h : ∀ j, (o1 j = "sat") ↔ (o2 j = "sat")) (step last k : Nat)
    (pre1 pre2 : List SmtCmd) (hpre : pre1.map eraseAns = pre2.map eraseAns) :
    ((bmcAfterObl cfg o1 step last k pre1).events).map eraseAns =
      ((bmcAfterObl cfg o2 step last k pre2).events).map eraseAns ∧
    (bmcAfterObl cfg o1 step last k pre1).next = (bmcAfterObl cfg o2 step last k pre2).next ∧
    (bmcAfterObl cfg o1 step last k pre1).checks = (bmcAfterObl cfg o2 step last k pre2).checks ∧
    (bmcAfterObl cfg o1 step last k pre1).ok = (bmcAfterObl cfg o2 step last k pre2).ok := by
  cases hfs : cfg.constr_final_start with
  | none => simp [bmcAfterObl, hfs, hpre]
  | some fs =>
      obtain ⟨he, hf, hc⟩ := finalLoop_oracle_congr fs o1 o2 h (last + 1 - step) step k
      simp [bmcAfterObl, hfs, hpre, he, hf, hc]

theorem bmcIter_oracle_congr (cfg : BmcCfg) (o1 o2 : Nat → String)
    (h : ∀ j, (o1 j = "sat") ↔ (o2 j = "sat")) (step k : Nat) :
    ((bmcIter cfg o1 step k).events).map eraseAns =
      ((bmcIter cfg o2 step k).events).map eraseAns ∧
    (bmcIter cfg o1 step k).next = (bmcIter cfg o2 step k).next ∧
    (bmcIter cfg o1 step k).checks = (bmcIter cfg o2 step k).checks ∧
    (bmcIter cfg o1 step k).ok = (bmcIter cfg o2 step k).ok := by
  by_cases hskip : step < cfg.skip_steps
  · simp [bmcIter_eq_skip cfg o1 step k hskip, bmcIter_eq_skip cfg o2 step k hskip]
  · by_cases hg : cfg.gentrace
    · by_cases hs : o1 k = "sat"
      · have hs2 : o2 k = "sat" := (h k).mp hs
        simp [bmcIter_eq_gentrace_sat cfg o1 step k hskip hg hs,
              bmcIter_eq_gentrace_sat cfg o2 step k hskip hg hs2, hs, hs2, eraseAns]
      · have hs2 : ¬ o2 k = "sat" := fun hc => hs ((h k).mpr hc)
        simp [bmcIter_eq_gentrace_fail cfg o1 step k hskip hg hs,
              bmcIter_eq_gentrace_fail cfg o2 step k hskip hg hs2, eraseAns]
    · have hg2 : cfg.gentrace = false := by simpa using hg
      by_cases hf : cfg.final_only
      · rw [bmcIter_eq_final_only cfg o1 step k hskip hg2 hf,
            bmcIter_eq_final_only cfg o2 step k hskip hg2 hf]
        exact bmcAfterObl_oracle_congr cfg o1 o2 h step (extendWindow cfg step).2 k _ _ rfl
      · have hf2 : cfg.final_only = false := by simpa using hf
        by_cases hs : o1 k = "sat"
        · have hs2 : o2 k = "sat" := (h k).mp hs
          simp [bmcIter_eq_obl_fail cfg o1 step k hskip hg2 hf2 hs,
                bmcIter_eq_obl_fail cfg o2 step k hskip hg2 hf2 hs2,
                eraseAns_oblFail step (extendWindow cfg step).2 (o1 k) (o2 k)]
        · have hs2 : ¬ o2 k = "sat" := fun hc => hs ((h k).mpr hc)
          rw [bmcIter_eq_obl_pass cfg o1 step k hskip hg2 hf2 hs,
              bmcIter_eq_obl_pass cfg o2 step k hskip hg2 hf2 hs2]
          exact bmcAfterObl_oracle_congr cfg o1 o2 h step (extendWindow cfg step).2 (k + 1) _ _
            (by simp [eraseAns_oblPass step (extendWindow cfg step).2 (o1 k) (o2 k)])

theorem bmcLoop_oracle_congr (cfg : BmcCfg) (o1 o2 : Nat → String)
    (h : ∀ j, (o1 j = "sat") ↔ (o2 j = "sat")) (fuel : Nat) :
    ∀ step k,
      ((bmcLoop cfg o1 fuel step k).events).map eraseAns =
        ((bmcLoop cfg o2 fuel step k).events).map eraseAns ∧
      (bmcLoop cfg o1 fuel step k).retstatus = (bmcLoop cfg o2 fuel step k).retstatus ∧
      (bmcLoop cfg o1 fuel step k).checks = (bmcLoop cfg o2 fuel step k).checks := by
  induction fuel with
  | zero => intro step k; simp [bmcLoop]
  | succ m ih =>
      intro step k
      by_cases hlt : step < cfg.num_steps
      · obtain ⟨he, hn, hc, hok⟩ := bmcIter_oracle_congr cfg o1 o2 h step k
        by_cases hok1 : (bmcIter cfg o1 step k).ok
        · have hok2 : (bmcIter cfg o2 step k).ok = true := hok ▸ hok1
          obtain ⟨re, rr, rc⟩ := ih (bmcIter cfg o1 step k).next (bmcIter cfg o1 step k).checks
          rw [hn, hc] at re rr rc
          obtain ⟨re2, rr2, rc2⟩ := ih (bmcIter cfg o1 step k).next (bmcIter cfg o1 step k).checks
          simp only [bmcLoop, hlt, if_true, hok1, hok2, if_pos]
          refine ⟨?_, ?_, ?_⟩
          · simp only [List.map_append]
            rw [he, re2, hn, hc]
          · rw [rr2, hn, hc]
          · rw [rc2, hn, hc]
        · have hok2 : (bmcIter cfg o2 step k).ok = false := by
            rw [← hok]; simpa using hok1
          simp only [bmcLoop, hlt, if_pos]
          rw [if_neg (by simp [hok1]), if_neg (by simp [hok2])]
          exact ⟨he, rfl, hc⟩
      · simp [bmcLoop, hlt]

theorem bmcRun_oracle_congr (cfg : BmcCfg) (o1 o2 : Nat → String)
    (h : ∀ j, (o1 j = "sat") ↔ (o2 j = "sat")) (fuel : Nat) :
    ((bmcRun cfg o1 fuel).events).map eraseAns = ((bmcRun cfg o2 fuel).events).map eraseAns ∧
    (bmcRun cfg o1 fuel).retstatus = (bmcRun cfg o2 fuel).retstatus := by
  obtain ⟨he, hr, _⟩ := bmcLoop_oracle_congr cfg o1 o2 h fuel 0 0
  by_cases hg : cfg.gentrace <;> simp [bmcRun, hg, he, hr, eraseAns]

theorem eraseAns_tiFrame (cfg : BmcCfg) (s : Nat) :
    (tiFrame cfg s).map eraseAns = tiFrame cfg s := by
  by_cases h : s = cfg.num_steps <;> simp [tiFrame, h, eraseAns]

theorem tiLoop_oracle_congr (cfg : BmcCfg) (o1 o2 : Nat → String)
    (h : ∀ j, (o1 j = "sat") ↔ (o2 j = "sat")) (l : List Nat) :
    ∀ sc k,
      ((tiLoop cfg o1 l sc k).events).map eraseAns =
        ((tiLoop cfg o2 l sc k).events).map eraseAns ∧
      (tiLoop cfg o1 l sc k).retstatus = (tiLoop cfg o2 l sc k).retstatus ∧
      (tiLoop cfg o1 l sc k).checks = (tiLoop cfg o2 l sc k).checks := by
  induction l with
  | nil => intro sc k; simp [tiLoop]
  | cons s rest ih =>
      intro sc k
      by_cases h1 : (cfg.num_steps : Int) - (cfg.skip_steps : Int) < (s : Int)
      · obtain ⟨he, hr, hc⟩ := ih sc k
        simp [tiLoop, h1, he, hr, hc, eraseAns_tiFrame]
      · by_cases h2 : sc + 1 < cfg.step_size
        · obtain ⟨he, hr, hc⟩ := ih (sc + 1) k
          simp [tiLoop, h1, h2, he, hr, hc, eraseAns_tiFrame]
        · by_cases hs : o1 k = "sat"
          · have hs2 : o2 k = "sat" := (h k).mp hs
            obtain ⟨he, hr, hc⟩ := ih 0 (k + 1)
            simp [tiLoop, h1, h2, hs, hs2, he, hr, hc, eraseAns_tiFrame, eraseAns]
          · have hs2 : ¬ o2 k = "sat" := fun hc => hs ((h k).mpr hc)
            simp [tiLoop, h1, h2, hs, hs2, eraseAns_tiFrame, eraseAns]

theorem finalLoop_ok_of_no_sat (fs : Nat) (oracle : Nat → String)
    (hns : ∀ j, oracle j ≠ "sat") (n : Nat) :
    ∀ lo k, (finalLoop fs oracle lo n k).2.1 = true := by
  induction n with
  | zero => intro lo k; simp [finalLoop]
  | succ m ih =>
      intro lo k
      by_cases h1 : lo < fs
      · simp [finalLoop, h1, ih]
      · simp [finalLoop, h1, hns k, ih]

theorem bmcIter_ok_of_no_sat (cfg : BmcCfg) (oracle : Nat → String) (step k : Nat)
    (hg : cfg.gentrace = false) (hns : ∀ j, oracle j ≠ "sat") :
    (bmcIter cfg oracle step k).ok = true := by
  by_cases hskip : step < cfg.skip_steps
  · simp [bmcIter_eq_skip cfg oracle step k hskip]
  · by_cases hf : cfg.final_only
    · rw [bmcIter_eq_final_only cfg oracle step k hskip hg hf]
      cases hfs : cfg.constr_final_start with
      | none => simp [bmcAfterObl, hfs]
      | some fs => simp [bmcAfterObl, hfs, finalLoop_ok_of_no_sat fs oracle hns]
    · rw [bmcIter_eq_obl_pass cfg oracle step k hskip hg (by simpa using hf) (hns k)]
      cases hfs : cfg.constr_final_start with
      | none => simp [bmcAfterObl, hfs]
      | some fs => simp [bmcAfterObl, hfs, finalLoop_ok_of_no_sat fs oracle hns]

theorem bmcLoop_pass_of_no_sat (cfg : BmcCfg) (oracle : Nat → String)
    (hg : cfg.gentrace = false) (hns : ∀ j, oracle j ≠ "sat") (fuel : Nat) :
    ∀ step k, (bmcLoop cfg oracle fuel step k).retstatus = true := by
  induction fuel with
  | zero => intro step k; simp [bmcLoop]
  | succ m ih =>
      intro step k
      by_cases hlt : step < cfg.num_steps
      · simp [bmcLoop, hlt, bmcIter_ok_of_no_sat cfg oracle step k hg hns, ih]
      · simp [bmcLoop, hlt]

theorem reverse_range_succ (n : Nat) :
    (List.range (n + 1)).reverse = n :: (List.range n).reverse := by
  simp [List.range_succ]

/-- Claim C9: in the BMC obligation check (line 615), the final-state check
(line 641) and the induction check (line 549), the failure branch is taken
exactly when `check_sat` returns the literal string `"sat"`.  Two solvers whose
answers agree on being-"sat" produce the same driver behaviour (same status,
same trace up to the recorded answer text); and a solver that never answers
sat — e.g. one answering "unknown" — makes every BMC obligation pass and makes
the first induction check succeed. -/
theorem check_sat_literal_branch (cfg : BmcCfg) (o1 o2 : Nat → String) (fuel : Nat)
    (h : ∀ j, (o1 j = "sat") ↔ (o2 j = "sat")) :
    ((bmcRun cfg o1 fuel).retstatus = (bmcRun cfg o2 fuel).retstatus ∧
     ((bmcRun cfg o1 fuel).events).map eraseAns = ((bmcRun cfg o2 fuel).events).map eraseAns) ∧
    ((tiRun cfg o1).retstatus = (tiRun cfg o2).retstatus ∧
     ((tiRun cfg o1).events).map eraseAns = ((tiRun cfg o2).events).map eraseAns) ∧
    (cfg.gentrace = false → (∀ j, o1 j ≠ "sat") → (bmcRun cfg o1 fuel).retstatus = true) ∧
    (cfg.skip_steps = 0 → (∀ j, o1 j ≠ "sat") → (tiRun cfg o1).retstatus = true) := by
  refine ⟨?_, ?_, ?_, ?_⟩
  · obtain ⟨he, hr⟩ := bmcRun_oracle_congr cfg o1 o2 h fuel
    exact ⟨hr, he⟩
  · obtain ⟨he, hr, _⟩ := tiLoop_oracle_congr cfg o1 o2 h
      ((List.range (cfg.num_steps + 1)).reverse) cfg.step_size 0
    exact ⟨hr, he⟩
  · intro hg hns
    simp [bmcRun, hg, bmcLoop_pass_of_no_sat cfg o1 hg hns fuel 0 0]
  · intro hskip hns
    rw [tiRun, reverse_range_succ]
    have h1 : ¬ ((cfg.num_steps : Int) - (cfg.skip_steps : Int) < (cfg.num_steps : Int)) := by
      simp [hskip]
    have h2 : ¬ (cfg.step_size + 1 < cfg.step_size) := by omega
    simp [tiLoop, h1, h2, hns 0]

theorem check_sat_literal_branch_witness :
    (bmcRun ⟨0, 1, 1, none, false, false, false, none⟩ (fun _ => "unknown") 1).retstatus =
      (bmcRun ⟨0, 1, 1, none, false, false, false, none⟩ (fun _ => "unsat") 1).retstatus :=
  ((check_sat_literal_branch ⟨0, 1, 1, none, false, false, false, none⟩
      (fun _ => "unknown") (fun _ => "unsat") 1 (fun j => by simp)).1).1

/-! ### Membership lemmas for skip-semantics and horizon claims -/

theorem assertA_not_mem_frameSetup (j a : Nat) : SmtCmd.assertA j ∉ frameSetup a := by
  by_cases h : a = 0 <;> simp [frameSetup, h]

theorem assertCA_not_mem_frameSetup (j a : Nat) :
    SmtCmd.assertConstrAsserts j ∉ frameSetup a := by
  by_cases h : a = 0 <;> simp [frameSetup, h]

theorem assertA_mem_skipEvents (cfg : BmcCfg) (c j : Nat) :
    SmtCmd.assertA j ∈ skipEvents cfg c ↔
      j = c ∧ ∃ K, cfg.assume_skipped = some K ∧ K ≤ c := by
  cases h : cfg.assume_skipped with
  | none => simp [skipEvents, h]
  | some K =>
      by_cases h2 : K ≤ c <;> simp [skipEvents, h, h2]

theorem assertCA_mem_skipEvents (cfg : BmcCfg) (c j : Nat) :
    SmtCmd.assertConstrAsserts j ∈ skipEvents cfg c ↔
      j = c ∧ ∃ K, cfg.assume_skipped = some K ∧ K ≤ c := by
  cases h : cfg.assume_skipped with
  | none => simp [skipEvents, h]
  | some K =>
      by_cases h2 : K ≤ c <;> simp [skipEvents, h, h2]

theorem assertA_not_mem_extendAux (cfg : BmcCfg) (step j : Nat) (n : Nat) :
    ∀ i last, SmtCmd.assertA j ∉ (extendAux cfg step i n last).1 := by
  induction n with
  | zero => intro i last; simp [extendAux]
  | succ m ih =>
      intro i last
      by_cases h : step + i < cfg.num_steps
      · simp [extendAux, h, extFrame, ih]
      · simp [extendAux, h, ih]

theorem assertCA_not_mem_extendAux (cfg : BmcCfg) (step j : Nat) (n : Nat) :
    ∀ i last, SmtCmd.assertConstrAsserts j ∉ (extendAux cfg step i n last).1 := by
  induction n with
  | zero => intro i last; simp [extendAux]
  | succ m ih =>
      intro i last
      by_cases h : step + i < cfg.num_steps
      · simp [extendAux, h, extFrame, ih]
      · simp [extendAux, h, ih]

theorem assertA_mem_commitAsserts (j : Nat) (n : Nat) :
    ∀ lo, SmtCmd.assertA j ∈ commitAsserts lo n ↔ lo ≤ j ∧ j < lo + n := by
  induction n with
  | zero => intro lo; simp [commitAsserts]
  | succ m ih => intro lo; simp [commitAsserts, ih]; omega

theorem assertCA_mem_commitAsserts (j : Nat) (n : Nat) :
    ∀ lo, SmtCmd.assertConstrAsserts j ∈ commitAsserts lo n ↔ lo ≤ j ∧ j < lo + n := by
  induction n with
  | zero => intro lo; simp [commitAsserts]
  | succ m ih => intro lo; simp [commitAsserts, ih]; omega

theorem assertA_not_mem_failedAssertsRange (j : Nat) (n : Nat) :
    ∀ lo, SmtCmd.assertA j ∉ failedAssertsRange lo n := by
  induction n with
  | zero => intro lo; simp [failedAssertsRange]
  | succ m ih => intro lo; simp [failedAssertsRange, ih]

theorem assertCA_not_mem_failedAssertsRange (j : Nat) (n : Nat) :
    ∀ lo, SmtCmd.assertConstrAsserts j ∉ failedAssertsRange lo n := by
  induction n with
  | zero => intro lo; simp [failedAssertsRange]
  | succ m ih => intro lo; simp [failedAssertsRange, ih]

theorem assertA_not_mem_oblPass (j lo hi : Nat) (ans : String) :
    SmtCmd.assertA j ∉ oblPass lo hi ans := by simp [oblPass]

theorem assertCA_not_mem_oblPass (j lo hi : Nat) (ans : String) :
    SmtCmd.assertConstrAsserts j ∉ oblPass lo hi ans := by simp [oblPass]

theorem assertA_not_mem_oblFail (j lo hi : Nat) (ans : String) :
    SmtCmd.assertA j ∉ oblFail lo hi ans := by
  simp [oblFail, assertA_not_mem_failedAssertsRange]

theorem assertCA_not_mem_oblFail (j lo hi : Nat) (ans : String) :
    SmtCmd.assertConstrAsserts j ∉ oblFail lo hi ans := by
  simp [oblFail, assertCA_not_mem_failedAssertsRange]

theorem assertA_not_mem_finalLoop (fs : Nat) (oracle : Nat → String) (j : Nat) (n : Nat) :
    ∀ lo k, SmtCmd.assertA j ∉ (finalLoop fs oracle lo n k).1 := by
  induction n with
  | zero => intro lo k; simp [finalLoop]
  | succ m ih =>
      intro lo k
      by_cases h1 : lo < fs
      · simp [finalLoop, h1, ih]
      · by_cases h2 : oracle k = "sat"
        · simp [finalLoop, h1, h2, finalFail]
        · simp [finalLoop, h1, h2, finalPass, ih]

theorem assertCA_not_mem_finalLoop (fs : Nat) (oracle : Nat → String) (j : Nat) (n : Nat) :
    ∀ lo k, SmtCmd.assertConstrAsserts j ∉ (finalLoop fs oracle lo n k).1 := by
  induction n with
  | zero => intro lo k; simp [finalLoop]
  | succ m ih =>
      intro lo k
      by_cases h1 : lo < fs
      · simp [finalLoop, h1, ih]
      · by_cases h2 : oracle k = "sat"
        · simp [finalLoop, h1, h2, finalFail]
        · simp [finalLoop, h1, h2, finalPass, ih]

theorem finalLoop_eq_pass (fs : Nat) (oracle : Nat → String) (lo m k : Nat)
    (h1 : ¬ lo < fs) (h2 : oracle k ≠ "sat") :
    finalLoop fs oracle lo (m + 1) k =
      (finalPass lo (oracle k) ++ (finalLoop fs oracle (lo + 1) m (k + 1)).1,
       (finalLoop fs oracle (lo + 1) m (k + 1)).2) := by
  simp [finalLoop, h1, h2]

theorem obligationWindows_append (a b : List SmtCmd) :
    obligationWindows (a ++ b) = obligationWindows a ++ obligationWindows b := by
  simp [obligationWindows]

theorem obligationWindows_frameSetup (a : Nat) : obligationWindows (frameSetup a) = [] := by
  by_cases h : a = 0 <;> simp [frameSetup, h, obligationWindows, windowOf]

theorem obligationWindows_skipEvents (cfg : BmcCfg) (a : Nat) :
    obligationWindows (skipEvents cfg a) = [] := by
  cases h : cfg.assume_skipped with
  | none => simp [skipEvents, h, obligationWindows]
  | some K => by_cases h2 : K ≤ a <;> simp [skipEvents, h, h2, obligationWindows, windowOf]

theorem obligationWindows_extFrame (step i : Nat) :
    obligationWindows (extFrame step i) = [] := by
  simp [extFrame, obligationWindows, windowOf]

theorem obligationWindows_extendAux (cfg : BmcCfg) (step : Nat) (n : Nat) :
    ∀ i last, obligationWindows (extendAux cfg step i n last).1 = [] := by
  induction n with
  | zero => intro i last; simp [extendAux, obligationWindows]
  | succ m ih =>
      intro i last
      by_cases h : step + i < cfg.num_steps
      · simp only [extendAux, h, if_true]
        rw [obligationWindows_append, ih, obligationWindows_extFrame]
        rfl
      · simp [extendAux, h, ih]

theorem obligationWindows_commitAsserts (n : Nat) :
    ∀ lo, obligationWindows (commitAsserts lo n) = [] := by
  induction n with
  | zero => intro lo; simp [commitAsserts, obligationWindows]
  | succ m ih =>
      intro lo
      rw [commitAsserts, obligationWindows_append, ih]
      simp [obligationWindows, windowOf]

theorem obligationWindows_failedAssertsRange (n : Nat) :
    ∀ lo, obligationWindows (failedAssertsRange lo n) = [] := by
  induction n with
  | zero => intro lo; simp [failedAssertsRange, obligationWindows]
  | succ m ih =>
      intro lo
      rw [failedAssertsRange]
      rw [show (SmtCmd.printFailedAsserts lo false :: failedAssertsRange (lo + 1) m) =
            [SmtCmd.printFailedAsserts lo false] ++ failedAssertsRange (lo + 1) m from rfl]
      rw [obligationWindows_append, ih]
      simp [obligationWindows, windowOf]

theorem obligationWindows_oblPass (lo hi : Nat) (ans : String) :
    obligationWindows (oblPass lo hi ans) = [(lo, hi)] := by
  simp [oblPass, obligationWindows, windowOf]

theorem obligationWindows_oblFail (lo hi : Nat) (ans : String) :
    obligationWindows (oblFail lo hi ans) = [(lo, hi)] := by
  rw [oblFail, obligationWindows_append, obligationWindows_append,
      obligationWindows_failedAssertsRange]
  simp [obligationWindows, windowOf]

theorem obligationWindows_finalLoop (fs : Nat) (oracle : Nat → String) (n : Nat) :
    ∀ lo k, obligationWindows (finalLoop fs oracle lo n k).1 = [] := by
  induction n with
  | zero => intro lo k; simp [finalLoop, obligationWindows]
  | succ m ih =>
      intro lo k
      by_cases h1 : lo < fs
      · simp [finalLoop, h1, ih]
      · by_cases h2 : oracle k = "sat"
        · simp [finalLoop, h1, h2, finalFail, obligationWindows, windowOf]
        · rw [finalLoop_eq_pass fs oracle lo m k h1 h2]
          rw [obligationWindows_append, ih]
          simp [finalPass, obligationWindows, windowOf]

/-! ### Loop unfolding lemmas -/

theorem bmcLoop_succ_ok_events (cfg : BmcCfg) (oracle : Nat → String) (m c k : Nat)
    (hlt : c < cfg.num_steps) (hok : (bmcIter cfg oracle c k).ok = true) :
    (bmcLoop cfg oracle (m + 1) c k).events =
      (bmcIter cfg oracle c k).events ++
        (bmcLoop cfg oracle m (bmcIter cfg oracle c k).next
          (bmcIter cfg oracle c k).checks).events := by
  simp [bmcLoop, hlt, hok]

theorem bmcLoop_succ_ok_retstatus (cfg : BmcCfg) (oracle : Nat → String) (m c k : Nat)
    (hlt : c < cfg.num_steps) (hok : (bmcIter cfg oracle c k).ok = true) :
    (bmcLoop cfg oracle (m + 1) c k).retstatus =
      (bmcLoop cfg oracle m (bmcIter cfg oracle c k).next
        (bmcIter cfg oracle c k).checks).retstatus := by
  simp [bmcLoop, hlt, hok]

theorem bmcLoop_succ_fail_events (cfg : BmcCfg) (oracle : Nat → String) (m c k : Nat)
    (hlt : c < cfg.num_steps) (hok : (bmcIter cfg oracle c k).ok = false) :
    (bmcLoop cfg oracle (m + 1) c k).events = (bmcIter cfg oracle c k).events := by
  simp [bmcLoop, hlt, hok]

theorem bmcLoop_stop_events (cfg : BmcCfg) (oracle : Nat → String) (m c k : Nat)
    (hlt : ¬ c < cfg.num_steps) :
    (bmcLoop cfg oracle (m + 1) c k).events = [] := by
  simp [bmcLoop, hlt]

theorem bmcIter_skip_events (cfg : BmcCfg) (oracle : Nat → String) (c k : Nat)
    (hskip : c < cfg.skip_steps) :
    (bmcIter cfg oracle c k).events = frameSetup c ++ skipEvents cfg c := by
  rw [bmcIter_eq_skip cfg oracle c k hskip]

theorem bmcIter_skip_next (cfg : BmcCfg) (oracle : Nat → String) (c k : Nat)
    (hskip : c < cfg.skip_steps) :
    (bmcIter cfg oracle c k).next = c + 1 := by
  rw [bmcIter_eq_skip cfg oracle c k hskip]

theorem bmcIter_skip_checks (cfg : BmcCfg) (oracle : Nat → String) (c k : Nat)
    (hskip : c < cfg.skip_steps) :
    (bmcIter cfg oracle c k).checks = k := by
  rw [bmcIter_eq_skip cfg oracle c k hskip]

theorem bmcIter_skip_ok (cfg : BmcCfg) (oracle : Nat → String) (c k : Nat)
    (hskip : c < cfg.skip_steps) :
    (bmcIter cfg oracle c k).ok = true := by
  rw [bmcIter_eq_skip cfg oracle c k hskip]

theorem bmcAfterObl_next (cfg : BmcCfg) (oracle : Nat → String)
    (step last k : Nat) (pre : List SmtCmd) :
    (bmcAfterObl cfg oracle step last k pre).next = step + cfg.step_size := by
  cases hfs : cfg.constr_final_start <;> simp [bmcAfterObl, hfs]

theorem obligationWindows_bmcAfterObl (cfg : BmcCfg) (oracle : Nat → String)
    (step last k : Nat) (pre : List SmtCmd) :
    obligationWindows (bmcAfterObl cfg oracle step last k pre).events =
      obligationWindows pre := by
  cases hfs : cfg.constr_final_start with
  | none =>
      simp [bmcAfterObl, hfs, obligationWindows_append, obligationWindows_commitAsserts]
  | some fs =>
      simp [bmcAfterObl, hfs, obligationWindows_append, obligationWindows_commitAsserts,
            obligationWindows_finalLoop]

/-! ### Origin of committed asserts (skip-region semantics) -/

theorem assertA_mem_bmcAfterObl (cfg : BmcCfg) (oracle : Nat → String)
    (step last k : Nat) (pre : List SmtCmd) (j : Nat)
    (hpre : SmtCmd.assertA j ∉ pre)
    (hmem : SmtCmd.assertA j ∈ (bmcAfterObl cfg oracle step last k pre).events) :
    step ≤ j := by
  cases hfs : cfg.constr_final_start with
  | none =>
      simp [bmcAfterObl, hfs, hpre, assertA_mem_commitAsserts] at hmem
      exact hmem.1
  | some fs =>
      simp [bmcAfterObl, hfs, hpre, assertA_mem_commitAsserts,
            assertA_not_mem_finalLoop] at hmem
      exact hmem.1

theorem assertCA_mem_bmcAfterObl (cfg : BmcCfg) (oracle : Nat → String)
    (step last k : Nat) (pre : List SmtCmd) (j : Nat)
    (hpre : SmtCmd.assertConstrAsserts j ∉ pre)
    (hmem : SmtCmd.assertConstrAsserts j ∈ (bmcAfterObl cfg oracle step last k pre).events) :
    step ≤ j := by
  cases hfs : cfg.constr_final_start with
  | none =>
      simp [bmcAfterObl, hfs, hpre, assertCA_mem_commitAsserts] at hmem
      exact hmem.1
  | some fs =>
      simp [bmcAfterObl, hfs, hpre, assertCA_mem_commitAsserts,
            assertCA_not_mem_finalLoop] at hmem
      exact hmem.1

theorem assertA_mem_bmcIter_origin (cfg : BmcCfg) (oracle : Nat → String) (c k j : Nat)
    (hmem : SmtCmd.assertA j ∈ (bmcIter cfg oracle c k).events) :
    (c < cfg.skip_steps ∧ j = c ∧ ∃ K, cfg.assume_skipped = some K ∧ K ≤ c) ∨
    (¬ c < cfg.skip_steps ∧ c ≤ j) := by
  by_cases hskip : c < cfg.skip_steps
  · rw [bmcIter_skip_events cfg oracle c k hskip] at hmem
    simp [assertA_not_mem_frameSetup, assertA_mem_skipEvents] at hmem
    exact Or.inl ⟨hskip, hmem⟩
  · refine Or.inr ⟨hskip, ?_⟩
    by_cases hg : cfg.gentrace
    · by_cases hs : oracle k = "sat"
      · rw [bmcIter_eq_gentrace_sat cfg oracle c k hskip hg hs] at hmem
        by_cases hd : cfg.dumpall
        · simp [hd, assertA_not_mem_frameSetup, extendWindow, assertA_not_mem_extendAux,
                assertA_mem_commitAsserts] at hmem
          exact hmem.1
        · simp [hd, assertA_not_mem_frameSetup, extendWindow, assertA_not_mem_extendAux,
                assertA_mem_commitAsserts] at hmem
          exact hmem.1
      · rw [bmcIter_eq_gentrace_fail cfg oracle c k hskip hg hs] at hmem
        simp [assertA_not_mem_frameSetup, extendWindow, assertA_not_mem_extendAux,
              assertA_mem_commitAsserts] at hmem
        exact hmem.1
    · have hg2 : cfg.gentrace = false := by simpa using hg
      by_cases hf : cfg.final_only
      · rw [bmcIter_eq_final_only cfg oracle c k hskip hg2 hf] at hmem
        exact assertA_mem_bmcAfterObl _ _ _ _ _ _ j
          (by simp [assertA_not_mem_frameSetup, extendWindow, assertA_not_mem_extendAux]) hmem
      · have hf2 : cfg.final_only = false := by simpa using hf
        by_cases hs : oracle k = "sat"
        · rw [bmcIter_eq_obl_fail cfg oracle c k hskip hg2 hf2 hs] at hmem
          simp [assertA_not_mem_frameSetup, extendWindow, assertA_not_mem_extendAux,
                assertA_not_mem_oblFail] at hmem
        · rw [bmcIter_eq_obl_pass cfg oracle c k hskip hg2 hf2 hs] at hmem
          exact assertA_mem_bmcAfterObl _ _ _ _ _ _ j
            (by simp [assertA_not_mem_frameSetup, extendWindow, assertA_not_mem_extendAux,
                      assertA_not_mem_oblPass]) hmem

theorem assertCA_mem_bmcIter_origin (cfg : BmcCfg) (oracle : Nat → String) (c k j : Nat)
    (hmem : SmtCmd.assertConstrAsserts j ∈ (bmcIter cfg oracle c k).events) :
    (c < cfg.skip_steps ∧ j = c ∧ ∃ K, cfg.assume_skipped = some K ∧ K ≤ c) ∨
    (¬ c < cfg.skip_steps ∧ c ≤ j) := by
  by_cases hskip : c < cfg.skip_steps
  · rw [bmcIter_skip_events cfg oracle c k hskip] at hmem
    simp [assertCA_not_mem_frameSetup, assertCA_mem_skipEvents] at hmem
    exact Or.inl ⟨hskip, hmem⟩
  · refine Or.inr ⟨hskip, ?_⟩
    by_cases hg : cfg.gentrace
    · by_cases hs : oracle k = "sat"
      · rw [bmcIter_eq_gentrace_sat cfg oracle c k hskip hg hs] at hmem
        by_cases hd : cfg.dumpall
        · simp [hd, assertCA_not_mem_frameSetup, extendWindow, assertCA_not_mem_extendAux,
                assertCA_mem_commitAsserts] at hmem
          exact hmem.1
        · simp [hd, assertCA_not_mem_frameSetup, extendWindow, assertCA_not_mem_extendAux,
                assertCA_mem_commitAsserts] at hmem
          exact hmem.1
      · rw [bmcIter_eq_gentrace_fail cfg oracle c k hskip hg hs] at hmem
        simp [assertCA_not_mem_frameSetup, extendWindow, assertCA_not_mem_extendAux,
              assertCA_mem_commitAsserts] at hmem
        exact hmem.1
    · have hg2 : cfg.gentrace = false := by simpa using hg
      by_cases hf : cfg.final_only
      · rw [bmcIter_eq_final_only cfg oracle c k hskip hg2 hf] at hmem
        exact assertCA_mem_bmcAfterObl _ _ _ _ _ _ j
          (by simp [assertCA_not_mem_frameSetup, extendWindow, assertCA_not_mem_extendAux]) hmem
      · have hf2 : cfg.final_only = false := by simpa using hf
        by_cases hs : oracle k = "sat"
        · rw [bmcIter_eq_obl_fail cfg oracle c k hskip hg2 hf2 hs] at hmem
          simp [assertCA_not_mem_frameSetup, extendWindow, assertCA_not_mem_extendAux,
                assertCA_not_mem_oblFail] at hmem
        · rw [bmcIter_eq_obl_pass cfg oracle c k hskip hg2 hf2 hs] at hmem
          exact assertCA_mem_bmcAfterObl _ _ _ _ _ _ j
            (by simp [assertCA_not_mem_frameSetup, extendWindow, assertCA_not_mem_extendAux,
                      assertCA_not_mem_oblPass]) hmem

theorem assertA_skip_origin (cfg : BmcCfg) (oracle : Nat → String) (fuel : Nat) :
    ∀ c k j, SmtCmd.assertA j ∈ (bmcLoop cfg oracle fuel c k).events →
      j < cfg.skip_steps → ∃ K, cfg.assume_skipped = some K ∧ K ≤ j := by
  induction fuel with
  | zero => intro c k j h hj; simp [bmcLoop] at h
  | succ m ih =>
      intro c k j hmem hj
      by_cases hlt : c < cfg.num_steps
      · by_cases hok : (bmcIter cfg oracle c k).ok
        · rw [bmcLoop_succ_ok_events cfg oracle m c k hlt hok] at hmem
          rcases List.mem_append.mp hmem with h1 | h2
          · rcases assertA_mem_bmcIter_origin cfg oracle c k j h1 with
              ⟨_, rfl, K, hK1, hK2⟩ | ⟨hns, hcj⟩
            · exact ⟨K, hK1, hK2⟩
            · omega
          · exact ih _ _ j h2 hj
        · have hkf : (bmcIter cfg oracle c k).ok = false := by simpa using hok
          rw [bmcLoop_succ_fail_events cfg oracle m c k hlt hkf] at hmem
          rcases assertA_mem_bmcIter_origin cfg oracle c k j hmem with
            ⟨_, rfl, K, hK1, hK2⟩ | ⟨hns, hcj⟩
          · exact ⟨K, hK1, hK2⟩
          · omega
      · rw [bmcLoop_stop_events cfg oracle m c k hlt] at hmem
        simp at hmem

theorem assertCA_skip_origin (cfg : BmcCfg) (oracle : Nat → String) (fuel : Nat) :
    ∀ c k j, SmtCmd.assertConstrAsserts j ∈ (bmcLoop cfg oracle fuel c k).events →
      j < cfg.skip_steps → ∃ K, cfg.assume_skipped = some K ∧ K ≤ j := by
  induction fuel with
  | zero => intro c k j h hj; simp [bmcLoop] at h
  | succ m ih =>
      intro c k j hmem hj
      by_cases hlt : c < cfg.num_steps
      · by_cases hok : (bmcIter cfg oracle c k).ok
        · rw [bmcLoop_succ_ok_events cfg oracle m c k hlt hok] at hmem
          rcases List.mem_append.mp hmem with h1 | h2
          · rcases assertCA_mem_bmcIter_origin cfg oracle c k j h1 with
              ⟨_, rfl, K, hK1, hK2⟩ | ⟨hns, hcj⟩
            · exact ⟨K, hK1, hK2⟩
            · omega
          · exact ih _ _ j h2 hj
        · have hkf : (bmcIter cfg oracle c k).ok = false := by simpa using hok
          rw [bmcLoop_succ_fail_events cfg oracle m c k hlt hkf] at hmem
          rcases assertCA_mem_bmcIter_origin cfg oracle c k j hmem with
            ⟨_, rfl, K, hK1, hK2⟩ | ⟨hns, hcj⟩
          · exact ⟨K, hK1, hK2⟩
          · omega
      · rw [bmcLoop_stop_events cfg oracle m c k hlt] at hmem
        simp at hmem

theorem skip_region_processed (cfg : BmcCfg) (oracle : Nat → String) (fuel : Nat) :
    ∀ c k i, c ≤ i → i < cfg.skip_steps → cfg.skip_steps ≤ cfg.num_steps → i < c + fuel →
      SmtCmd.declareFun i ∈ (bmcLoop cfg oracle fuel c k).events ∧
      (∀ K, cfg.assume_skipped = some K → K ≤ i →
        SmtCmd.assertA i ∈ (bmcLoop cfg oracle fuel c k).events ∧
        SmtCmd.assertConstrAsserts i ∈ (bmcLoop cfg oracle fuel c k).events) := by
  induction fuel with
  | zero => intro c k i h1 h2 h3 h4; omega
  | succ m ih =>
      intro c k i h1 h2 h3 h4
      have hskip : c < cfg.skip_steps := by omega
      have hlt : c < cfg.num_steps := by omega
      have hok := bmcIter_skip_ok cfg oracle c k hskip
      rw [bmcLoop_succ_ok_events cfg oracle m c k hlt hok]
      rcases Nat.eq_or_lt_of_le h1 with rfl | hlt2
      · refine ⟨?_, ?_⟩
        · apply List.mem_append_left
          rw [bmcIter_skip_events cfg oracle c k hskip]
          simp [frameSetup]
        · intro K hA hK
          constructor <;>
            (apply List.mem_append_left;
             rw [bmcIter_skip_events cfg oracle c k hskip];
             simp [skipEvents, hA, hK])
      · rw [bmcIter_skip_next cfg oracle c k hskip, bmcIter_skip_checks cfg oracle c k hskip]
        obtain ⟨hd, hrest⟩ := ih (c + 1) k i (by omega) h2 h3 (by omega)
        refine ⟨List.mem_append_right _ hd, fun K hA hK => ?_⟩
        obtain ⟨ha, hca⟩ := hrest K hA hK
        exact ⟨List.mem_append_right _ ha, List.mem_append_right _ hca⟩

theorem obligationWindows_bmcIter_cases (cfg : BmcCfg) (oracle : Nat → String) (c k : Nat) :
    obligationWindows (bmcIter cfg oracle c k).events = [] ∨
    (¬ c < cfg.skip_steps ∧
      obligationWindows (bmcIter cfg oracle c k).events = [(c, (extendWindow cfg c).2)]) := by
  by_cases hskip : c < cfg.skip_steps
  · left
    rw [bmcIter_skip_events cfg oracle c k hskip, obligationWindows_append,
        obligationWindows_frameSetup, obligationWindows_skipEvents]
    rfl
  · by_cases hg : cfg.gentrace
    · left
      by_cases hs : oracle k = "sat"
      · rw [bmcIter_eq_gentrace_sat cfg oracle c k hskip hg hs]
        show obligationWindows (frameSetup c ++ (extendWindow cfg c).1 ++
          commitAsserts c ((extendWindow cfg c).2 + 1 - c) ++ [SmtCmd.checkSat (oracle k)] ++
          (if cfg.dumpall then
            [SmtCmd.printAnyconsts 0,
             SmtCmd.writeTrace 0 ((extendWindow cfg c).2 + 1) (toString c)]
           else [])) = []
        rw [obligationWindows_append, obligationWindows_append, obligationWindows_append,
            obligationWindows_append, obligationWindows_frameSetup,
            show (extendWindow cfg c).1 = (extendAux cfg c 1 (cfg.step_size - 1) c).1 from rfl,
            obligationWindows_extendAux, obligationWindows_commitAsserts]
        by_cases hd : cfg.dumpall <;> simp [hd, obligationWindows, windowOf]
      · rw [bmcIter_eq_gentrace_fail cfg oracle c k hskip hg hs]
        show obligationWindows (frameSetup c ++ (extendWindow cfg c).1 ++
          commitAsserts c ((extendWindow cfg c).2 + 1 - c) ++ [SmtCmd.checkSat (oracle k)]) = []
        rw [obligationWindows_append, obligationWindows_append, obligationWindows_append,
            obligationWindows_frameSetup,
            show (extendWindow cfg c).1 = (extendAux cfg c 1 (cfg.step_size - 1) c).1 from rfl,
            obligationWindows_extendAux, obligationWindows_commitAsserts]
        simp [obligationWindows, windowOf]
    · have hg2 : cfg.gentrace = false := by simpa using hg
      by_cases hf : cfg.final_only
      · left
        rw [bmcIter_eq_final_only cfg oracle c k hskip hg2 hf, obligationWindows_bmcAfterObl,
            obligationWindows_append, obligationWindows_frameSetup,
            show (extendWindow cfg c).1 = (extendAux cfg c 1 (cfg.step_size - 1) c).1 from rfl,
            obligationWindows_extendAux]
        rfl
      · have hf2 : cfg.final_only = false := by simpa using hf
        right
        refine ⟨hskip, ?_⟩
        by_cases hs : oracle k = "sat"
        · rw [bmcIter_eq_obl_fail cfg oracle c k hskip hg2 hf2 hs]
          show obligationWindows (frameSetup c ++ (extendWindow cfg c).1 ++
            oblFail c (extendWindow cfg c).2 (oracle k)) = _
          rw [obligationWindows_append, obligationWindows_append,
              obligationWindows_frameSetup, obligationWindows_oblFail,
              show (extendWindow cfg c).1 = (extendAux cfg c 1 (cfg.step_size - 1) c).1 from rfl,
              obligationWindows_extendAux]
          rfl
        · rw [bmcIter_eq_obl_pass cfg oracle c k hskip hg2 hf2 hs, obligationWindows_bmcAfterObl,
              obligationWindows_append, obligationWindows_append,
              obligationWindows_frameSetup, obligationWindows_oblPass,
              show (extendWindow cfg c).1 = (extendAux cfg c 1 (cfg.step_size - 1) c).1 from rfl,
              obligationWindows_extendAux]
          rfl

theorem obligationWindows_bmcLoop_lower (cfg : BmcCfg) (oracle : Nat → String) (fuel : Nat) :
    ∀ c k w, w ∈ obligationWindows (bmcLoop cfg oracle fuel c k).events →
      cfg.skip_steps ≤ w.1 ∧ c ≤ w.1 := by
  induction fuel with
  | zero => intro c k w h; simp [bmcLoop, obligationWindows] at h
  | succ m ih =>
      intro c k w hmem
      by_cases hlt : c < cfg.num_steps
      · by_cases hok : (bmcIter cfg oracle c k).ok
        · rw [bmcLoop_succ_ok_events cfg oracle m c k hlt hok,
              obligationWindows_append] at hmem
          rcases List.mem_append.mp hmem with h1 | h2
          · rcases obligationWindows_bmcIter_cases cfg oracle c k with hz | ⟨hnskip, hone⟩
            · rw [hz] at h1; simp at h1
            · rw [hone] at h1
              simp at h1
              subst h1
              exact ⟨by omega, le_refl c⟩
          · obtain ⟨hs, hc⟩ := ih _ _ w h2
            have hnext : c ≤ (bmcIter cfg oracle c k).next := by
              by_cases hskip : c < cfg.skip_steps
              · rw [bmcIter_skip_next cfg oracle c k hskip]; omega
              · by_cases hg : cfg.gentrace
                · by_cases hsx : oracle k = "sat"
                  · rw [bmcIter_eq_gentrace_sat cfg oracle c k hskip hg hsx]
                    exact Nat.le_add_right c cfg.step_size
                  · rw [bmcIter_eq_gentrace_fail cfg oracle c k hskip hg hsx]
                    exact Nat.le_add_right c cfg.step_size
                · have hg2 : cfg.gentrace = false := by simpa using hg
                  by_cases hf : cfg.final_only
                  · rw [bmcIter_eq_final_only cfg oracle c k hskip hg2 hf, bmcAfterObl_next]
                    exact Nat.le_add_right c cfg.step_size
                  · have hf2 : cfg.final_only = false := by simpa using hf
                    by_cases hsx : oracle k = "sat"
                    · rw [bmcIter_eq_obl_fail cfg oracle c k hskip hg2 hf2 hsx]
                      exact Nat.le_add_right c cfg.step_size
                    · rw [bmcIter_eq_obl_pass cfg oracle c k hskip hg2 hf2 hsx,
                          bmcAfterObl_next]
                      exact Nat.le_add_right c cfg.step_size
            exact ⟨hs, le_trans hnext hc⟩
        · have hkf : (bmcIter cfg oracle c k).ok = false := by simpa using hok
          rw [bmcLoop_succ_fail_events cfg oracle m c k hlt hkf] at hmem
          rcases obligationWindows_bmcIter_cases cfg oracle c k with hz | ⟨hnskip, hone⟩
          · rw [hz] at hmem; simp at hmem
          · rw [hone] at hmem
            simp at hmem
            subst hmem
            exact ⟨by omega, le_refl c⟩
      · rw [bmcLoop_stop_events cfg oracle m c k hlt] at hmem
        simp [obligationWindows] at hmem

/-- Claim C3: `--assume-skipped K` semantics (smtbmc.py lines 584-592).  Every
skipped step `i < skip_steps` is processed by its own iteration (the cursor
advances by 1 per skipped step, so each such frame is declared); for
`K ≤ i < skip_steps` the module assert conjunction `a(s_i)` and the resolved
user asserts for step `i` are assumed; for `i < K` they are neither assumed
(no such assert event exists in the whole run) nor checked (no obligation
window covers a skipped step). -/
theorem assume_skipped_semantics (cfg : BmcCfg) (oracle : Nat → String)
    (fuel i K : Nat) (hA : cfg.assume_skipped = some K) (hi : i < cfg.skip_steps) :
    (cfg.skip_steps ≤ cfg.num_steps → cfg.skip_steps ≤ fuel →
      SmtCmd.declareFun i ∈ (bmcRun cfg oracle fuel).events ∧
      (K ≤ i →
        SmtCmd.assertA i ∈ (bmcRun cfg oracle fuel).events ∧
        SmtCmd.assertConstrAsserts i ∈ (bmcRun cfg oracle fuel).events)) ∧
    (i < K →
      SmtCmd.assertA i ∉ (bmcRun cfg oracle fuel).events ∧
      SmtCmd.assertConstrAsserts i ∉ (bmcRun cfg oracle fuel).events) ∧
    (∀ w ∈ obligationWindows (bmcRun cfg oracle fuel).events, ¬ (w.1 ≤ i ∧ i ≤ w.2)) := by
  have hloopmem : ∀ e : SmtCmd, e ∈ (bmcLoop cfg oracle fuel 0 0).events →
      e ∈ (bmcRun cfg oracle fuel).events := by
    intro e he
    by_cases hg : cfg.gentrace <;> simp [bmcRun, hg, he]
  have hrunmem : ∀ e : SmtCmd,
      e ∈ (bmcRun cfg oracle fuel).events →
      e ∈ (bmcLoop cfg oracle fuel 0 0).events ∨
      e ∈ [SmtCmd.printAnyconsts 0, SmtCmd.writeTrace 0 cfg.num_steps "%"] := by
    intro e he
    by_cases hg : cfg.gentrace
    · simp [bmcRun, hg] at he
      rcases he with h | h | h
      · exact Or.inl h
      · exact Or.inr (by simp [h])
      · exact Or.inr (by simp [h])
    · simp [bmcRun, hg] at he
      exact Or.inl he
  refine ⟨?_, ?_, ?_⟩
  · intro hsn hsf
    obtain ⟨hd, hrest⟩ := skip_region_processed cfg oracle fuel 0 0 i (by omega) hi hsn
      (by omega)
    refine ⟨hloopmem _ hd, fun hK => ?_⟩
    obtain ⟨ha, hca⟩ := hrest K hA hK
    exact ⟨hloopmem _ ha, hloopmem _ hca⟩
  · intro hiK
    constructor
    · intro hmem
      rcases hrunmem _ hmem with hl | hx
      · obtain ⟨K2, hK2, hK2le⟩ := assertA_skip_origin cfg oracle fuel 0 0 i hl hi
        rw [hA] at hK2
        injection hK2 with hK2
        omega
      · simp at hx
    · intro hmem
      rcases hrunmem _ hmem with hl | hx
      · obtain ⟨K2, hK2, hK2le⟩ := assertCA_skip_origin cfg oracle fuel 0 0 i hl hi
        rw [hA] at hK2
        injection hK2 with hK2
        omega
      · simp at hx
  · intro w hw hcov
    have hwl : w ∈ obligationWindows (bmcLoop cfg oracle fuel 0 0).events := by
      by_cases hg : cfg.gentrace
      · rw [bmcRun] at hw
        simp only [hg, if_true] at hw
        rw [obligationWindows_append] at hw
        rcases List.mem_append.mp hw with h1 | h2
        · exact h1
        · simp [obligationWindows, windowOf] at h2
      · simpa [bmcRun, hg] using hw
    obtain ⟨hs, _⟩ := obligationWindows_bmcLoop_lower cfg oracle fuel 0 0 w hwl
    omega

theorem assume_skipped_semantics_witness :
    SmtCmd.assertA 1 ∈
      (bmcRun ⟨3, 1, 5, some 1, false, false, false, none⟩ (fun _ => "unsat") 5).events ∧
    SmtCmd.assertA 0 ∉
      (bmcRun ⟨3, 1, 5, some 1, false, false, false, none⟩ (fun _ => "unsat") 5).events :=
  ⟨(((assume_skipped_semantics ⟨3, 1, 5, some 1, false, false, false, none⟩
      (fun _ => "unsat") 5 1 1 rfl (by decide)).1 (by decide) (by decide)).2 (by decide)).1,
   ((assume_skipped_semantics ⟨3, 1, 5, some 1, false, false, false, none⟩
      (fun _ => "unsat") 5 0 1 rfl (by decide)).2.1 (by decide)).1⟩

/-! ### Horizon law -/

theorem extendAux_last (cfg : BmcCfg) (step : Nat) (n : Nat) :
    ∀ i last, 1 ≤ i → last = min (step + i - 1) (cfg.num_steps - 1) →
      (extendAux cfg step i n last).2 = min (step + i - 1 + n) (cfg.num_steps - 1) := by
  induction n with
  | zero => intro i last h1 h2; simpa [extendAux] using h2
  | succ m ih =>
      intro i last h1 h2
      by_cases h : step + i < cfg.num_steps
      · simp only [extendAux, h, if_true]
        rw [ih (i + 1) (step + i) (by omega) (by omega)]
        omega
      · simp only [extendAux, h, if_false]
        rw [ih (i + 1) last (by omega) (by omega)]
        omega

theorem extendWindow_last (cfg : BmcCfg) (step : Nat)
    (hlt : step < cfg.num_steps) (hK : 1 ≤ cfg.step_size) :
    (extendWindow cfg step).2 = min (step + cfg.step_size - 1) (cfg.num_steps - 1) := by
  rw [extendWindow, extendAux_last cfg step (cfg.step_size - 1) 1 step (by omega) (by omega)]
  omega

theorem specWindows_mem (k n : Nat) (fuel : Nat) :
    ∀ c w, w ∈ specWindows k n fuel c →
      c ≤ w.1 ∧ w.1 < n ∧ w.2 = min (w.1 + k - 1) (n - 1) := by
  induction fuel with
  | zero => intro c w h; simp [specWindows] at h
  | succ m ih =>
      intro c w h
      by_cases hc : c < n
      · simp only [specWindows, hc, if_true, List.mem_cons] at h
        rcases h with rfl | h
        · exact ⟨le_refl _, hc, rfl⟩
        · obtain ⟨h1, h2, h3⟩ := ih (c + k) w h
          exact ⟨by omega, h2, h3⟩
      · simp [specWindows, hc] at h

theorem specWindows_countP_zero (k n : Nat) (fuel : Nat) (c s : Nat) (hs : s < c) :
    (specWindows k n fuel c).countP (fun w => decide (w.1 ≤ s ∧ s ≤ w.2)) = 0 := by
  apply List.countP_eq_zero.mpr
  intro w hw
  have h1 := (specWindows_mem k n fuel c w hw).1
  simp only [decide_eq_true_eq]
  omega

theorem specWindows_countP_one (k n : Nat) (hK : 1 ≤ k) (fuel : Nat) :
    ∀ c s, c ≤ s → s < n → n - c ≤ fuel →
      (specWindows k n fuel c).countP (fun w => decide (w.1 ≤ s ∧ s ≤ w.2)) = 1 := by
  induction fuel with
  | zero => intro c s h1 h2 h3; omega
  | succ m ih =>
      intro c s h1 h2 h3
      have hc : c < n := by omega
      simp only [specWindows, hc, if_true, List.countP_cons]
      by_cases hcov : s ≤ min (c + k - 1) (n - 1)
      · rw [specWindows_countP_zero k n m (c + k) s (by omega)]
        simp [hcov, h1]
      · have hs2 : c + k ≤ s := by omega
        rw [ih (c + k) s hs2 h2 (by omega)]
        simp only [decide_eq_true_eq]
        rw [if_neg (by omega)]

theorem specWindows_eq_of_k1 (n : Nat) (fuel : Nat) :
    ∀ c, n - c ≤ fuel →
      specWindows 1 n fuel c = (List.range' c (n - c)).map (fun i => (i, i)) := by
  induction fuel with
  | zero =>
      intro c h
      have hnc : n - c = 0 := by omega
      simp [specWindows, hnc]
  | succ m ih =>
      intro c h
      by_cases hc : c < n
      · have hmin : min (c + 1 - 1) (n - 1) = c := by omega
        have hcount : n - c = (n - (c + 1)) + 1 := by omega
        simp only [specWindows, hc, if_true, hmin]
        rw [hcount, List.range'_succ, List.map_cons, ih (c + 1) (by omega)]
      · have hnc : n - c = 0 := by omega
        simp [specWindows, hc, hnc]

theorem bmcIter_obl_pass_next (cfg : BmcCfg) (oracle : Nat → String) (c k : Nat)
    (hskip : ¬ c < cfg.skip_steps) (hg : cfg.gentrace = false)
    (hf : cfg.final_only = false) (hs : oracle k ≠ "sat") :
    (bmcIter cfg oracle c k).next = c + cfg.step_size := by
  rw [bmcIter_eq_obl_pass cfg oracle c k hskip hg hf hs, bmcAfterObl_next]

theorem obligationWindows_bmcLoop_eq_spec (cfg : BmcCfg) (oracle : Nat → String)
    (hg : cfg.gentrace = false) (hf : cfg.final_only = false)
    (hskip : cfg.skip_steps = 0) (hK : 1 ≤ cfg.step_size)
    (hns : ∀ j, oracle j ≠ "sat") (fuel : Nat) :
    ∀ c k, obligationWindows (bmcLoop cfg oracle fuel c k).events =
      specWindows cfg.step_size cfg.num_steps fuel c := by
  induction fuel with
  | zero => intro c k; simp [bmcLoop, specWindows, obligationWindows]
  | succ m ih =>
      intro c k
      by_cases hlt : c < cfg.num_steps
      · have hnskip : ¬ c < cfg.skip_steps := by omega
        have hok : (bmcIter cfg oracle c k).ok = true :=
          bmcIter_ok_of_no_sat cfg oracle c k hg hns
        rw [bmcLoop_succ_ok_events cfg oracle m c k hlt hok, obligationWindows_append]
        have hwin : obligationWindows (bmcIter cfg oracle c k).events =
            [(c, min (c + cfg.step_size - 1) (cfg.num_steps - 1))] := by
          rcases obligationWindows_bmcIter_cases cfg oracle c k with hz | ⟨_, hone⟩
          · exfalso
            rw [bmcIter_eq_obl_pass cfg oracle c k hnskip hg hf (hns k),
                obligationWindows_bmcAfterObl, obligationWindows_append,
                obligationWindows_append, obligationWindows_frameSetup,
                obligationWindows_oblPass,
                show (extendWindow cfg c).1 = (extendAux cfg c 1 (cfg.step_size - 1) c).1
                  from rfl,
                obligationWindows_extendAux] at hz
            simp at hz
          · rw [hone, extendWindow_last cfg c hlt hK]
        rw [hwin, ih (bmcIter cfg oracle c k).next (bmcIter cfg oracle c k).checks,
            bmcIter_obl_pass_next cfg oracle c k hnskip hg hf (hns k)]
        simp only [specWindows, hlt, if_true]
        rfl
      · rw [bmcLoop_stop_events cfg oracle m c k hlt]
        simp [specWindows, hlt, obligationWindows]

/-- Claim C4: horizon law.  In a completed BMC run (no skip, window width
`step_size ≥ 1`, non-gentrace, not final-only, solver never answering sat):
with step size 1 the driver issues assert-obligation checks for exactly the
windows `[(0,0), ..., (N-1,N-1)]`, i.e. exactly the steps `0..N-1`; with any
step size every step below the horizon is covered by exactly one checked
window, and every window has width at most `step_size` and stays below the
horizon. -/
theorem bmc_horizon_windows (cfg : BmcCfg) (oracle : Nat → String) (fuel : Nat)
    (hskip : cfg.skip_steps = 0) (hg : cfg.gentrace = false)
    (hf : cfg.final_only = false) (hK : 1 ≤ cfg.step_size)
    (hns : ∀ j, oracle j ≠ "sat") (hfuel : cfg.num_steps ≤ fuel) :
    (cfg.step_size = 1 →
      obligationWindows (bmcRun cfg oracle fuel).events =
        (List.range cfg.num_steps).map (fun i => (i, i))) ∧
    (∀ s, s < cfg.num_steps →
      (obligationWindows (bmcRun cfg oracle fuel).events).countP
        (fun w => decide (w.1 ≤ s ∧ s ≤ w.2)) = 1) ∧
    (∀ w ∈ obligationWindows (bmcRun cfg oracle fuel).events,
      w.1 ≤ w.2 ∧ w.2 < cfg.num_steps ∧ w.2 + 1 ≤ w.1 + cfg.step_size) := by
  have hevs : (bmcRun cfg oracle fuel).events = (bmcLoop cfg oracle fuel 0 0).events := by
    simp [bmcRun, hg]
  have hrun : obligationWindows (bmcRun cfg oracle fuel).events =
      specWindows cfg.step_size cfg.num_steps fuel 0 := by
    rw [hevs]
    exact obligationWindows_bmcLoop_eq_spec cfg oracle hg hf hskip hK hns fuel 0 0
  refine ⟨?_, ?_, ?_⟩
  · intro h1
    rw [hrun, h1, specWindows_eq_of_k1 cfg.num_steps fuel 0 (by omega)]
    rw [List.range_eq_range', Nat.sub_zero]
  · intro s hs
    rw [hrun]
    exact specWindows_countP_one cfg.step_size cfg.num_steps hK fuel 0 s (by omega) hs
      (by omega)
  · intro w hw
    rw [hrun] at hw
    obtain ⟨h1, h2, h3⟩ := specWindows_mem cfg.step_size cfg.num_steps fuel 0 w hw
    omega

theorem bmc_horizon_windows_witness :
    obligationWindows (bmcRun ⟨0, 2, 3, none, false, false, false, none⟩
      (fun _ => "unsat") 3).events = [(0, 1), (2, 2)] ∧
    (obligationWindows (bmcRun ⟨0, 2, 3, none, false, false, false, none⟩
      (fun _ => "unsat") 3).events).countP (fun w => decide (w.1 ≤ 1 ∧ 1 ≤ w.2)) = 1 :=
  ⟨by decide,
   (bmc_horizon_windows ⟨0, 2, 3, none, false, false, false, none⟩ (fun _ => "unsat") 3
      rfl rfl rfl (by decide) (fun j => by simp) (by decide)).2.1 1 (by decide)⟩

/-- Claim C7: the specification says a constraint-file parse error is reported
with a `file:line` diagnostic.  This is false: an unknown leading directive
falls through to the bare `assert 0` of line 229, which raises an
AssertionError whose message is empty — it names neither the constraint file
nor the line.  (The stored `"%s:%d" % (fn, current_line)` location is attached
only to successfully parsed constraints, never to errors.)  The run does
abort. -/
theorem parse_error_without_location :
    parseConstrFile 20 "constr.smtc" ["frobnicate [x]"] dbEmpty =
      Except.error ParseErr.assertionError ∧
    errMessage ParseErr.assertionError = "" := by
  exact ⟨rfl, rfl⟩

/-- Claim C7 (amended): every malformed constraint line — an unknown leading
directive, an `assert`/`assume` before any state scope, or a malformed
range/argument — aborts the run via an uncaught exception; the diagnostic is a
bare AssertionError (empty message) or an `int()` ValueError naming only the
offending literal, with no constraint-file `file:line`. -/
theorem constr_parse_errors_abort (n ln : Nat) (fn line : String)
    (cur : Option (List ConstrKey)) (db : ConstrDB) (w a b : String)
    (rest : List String) :
    (¬ startsWithHash line = true → pySplit line = w :: rest →
      w ∉ (["initial", "final", "state", "always", "assert", "assume"] : List String) →
      parseConstrLine n fn ln line cur db = Except.error ParseErr.assertionError) ∧
    (¬ startsWithHash line = true → pySplit line = w :: rest →
      (w = "assert" ∨ w = "assume") → cur = none →
      parseConstrLine n fn ln line cur db = Except.error ParseErr.assertionError) ∧
    (¬ startsWithHash line = true → pySplit line = ["state", w] →
      splitOnColon w = [a, b] → pyInt a = none →
      parseConstrLine n fn ln line cur db = Except.error (ParseErr.valueError a)) := by
  refine ⟨?_, ?_, ?_⟩
  · intro hh htoks hnk
    simp only [List.mem_cons, List.mem_singleton] at hnk
    push_neg at hnk
    obtain ⟨h1, h2, h3, h4, h5, h6, _⟩ := hnk
    rw [parseConstrLine, if_neg (by simp [hh]), htoks]
    simp [parseTokens, h1, h2, h3, h4, h5, h6]
  · intro hh htoks hw hcur
    rw [parseConstrLine, if_neg (by simp [hh]), htoks, hcur]
    rcases hw with rfl | rfl <;> simp [parseTokens]
  · intro hh htoks hsplit hint
    rw [parseConstrLine, if_neg (by simp [hh]), htoks]
    simp [parseTokens, stateDirective, stateItemKeys, hsplit, hint]

theorem constr_parse_errors_abort_witness :
    parseConstrLine 20 "c.smtc" 3 "assert (= [x] 1)" none dbEmpty =
      Except.error ParseErr.assertionError :=
  (constr_parse_errors_abort 20 3 "c.smtc" "assert (= [x] 1)" none dbEmpty
      "assert" "" "" ["(=", "[x]", "1)"]).2.1 (by decide) (by decide) (Or.inl rfl) rfl

/-! ### Accumulation of constr_final_start -/

theorem finalDirective_final_start (n : Nat) (rest : List String) (fs : Option Nat)
    (out : List ConstrKey × Option Nat)
    (h : finalDirective n rest fs = Except.ok out) :
    out.2 = minFold fs (finalDirectiveArgVals rest) := by
  rcases rest with _ | ⟨x, rest2⟩
  · simp only [finalDirective, Except.ok.injEq] at h
    rw [← h]
    cases fs <;> simp [finalDirectiveArgVals, minFold, minUpd]
  · rcases rest2 with _ | ⟨y, rest3⟩
    · rcases hint : pyInt x with _ | i
      · simp [finalDirective, hint] at h
      · by_cases hneg : i < 0
        · simp only [finalDirective, hint, hneg, if_pos, Except.ok.injEq] at h
          rw [← h]
          cases fs <;> simp [finalDirectiveArgVals, minFold, minUpd, hint, hneg]
        · simp [finalDirective, hint, hneg] at h
    · simp [finalDirective] at h

theorem parseConstrLine_final_start (n : Nat) (fn : String) (ln : Nat) (line : String)
    (cur : Option (List ConstrKey)) (db : ConstrDB)
    (cur2 : Option (List ConstrKey)) (db2 : ConstrDB)
    (h : parseConstrLine n fn ln line cur db = Except.ok (cur2, db2)) :
    db2.final_start = minFold db.final_start (finalValOfLine line).toList := by
  rw [parseConstrLine] at h
  rw [finalValOfLine]
  by_cases hh : startsWithHash line
  · rw [if_pos hh] at h
    rw [if_pos hh]
    simp only [Except.ok.injEq, Prod.mk.injEq] at h
    rw [← h.2]
    rfl
  · rw [if_neg hh] at h
    rw [if_neg hh]
    rcases htoks : pySplit line with _ | ⟨t, rest⟩
    · rw [htoks] at h
      simp only [htoks]
      simp only [parseTokens, Except.ok.injEq, Prod.mk.injEq] at h
      rw [← h.2]
      rfl
    · rw [htoks] at h
      simp only [htoks]
      simp only [parseTokens] at h
      by_cases h1 : t = "initial"
      · rw [if_pos h1] at h
        simp only [Except.ok.injEq, Prod.mk.injEq] at h
        rw [← h.2, if_neg (by rw [h1]; decide)]
        rfl
      · rw [if_neg h1] at h
        by_cases h2 : t = "final"
        · rw [if_pos h2] at h
          rw [if_pos h2]
          rcases hfd : finalDirective n rest db.final_start with e | out
          · rw [hfd] at h; simp at h
          · rw [hfd] at h
            simp only [Except.ok.injEq, Prod.mk.injEq] at h
            have hfs := finalDirective_final_start n rest db.final_start out hfd
            rw [← h.2]
            show out.2 = _
            rw [hfs]
            rcases rest with _ | ⟨x, rest2⟩
            · rfl
            · rcases rest2 with _ | ⟨y, rest3⟩
              · rcases hint : pyInt x with _ | i
                · simp [hint, finalDirectiveArgVals]
                · by_cases hneg : i < 0 <;> simp [hint, hneg, finalDirectiveArgVals]
              · rfl
        · rw [if_neg h2] at h
          rw [if_neg h2]
          by_cases h3 : t = "state"
          · rw [if_pos h3] at h
            rcases hsd : stateDirective n rest [] with e | keys
            · rw [hsd] at h; simp at h
            · rw [hsd] at h
              simp only [Except.ok.injEq, Prod.mk.injEq] at h
              rw [← h.2]; rfl
          · rw [if_neg h3] at h
            by_cases h4 : t = "always"
            · rw [if_pos h4] at h
              rcases had : alwaysDirective n rest with e | keys
              · rw [had] at h; simp at h
              · rw [had] at h
                simp only [Except.ok.injEq, Prod.mk.injEq] at h
                rw [← h.2]; rfl
            · rw [if_neg h4] at h
              by_cases h5 : t = "assert"
              · rw [if_pos h5] at h
                rcases cur with _ | keys
                · simp at h
                · simp only [Except.ok.injEq, Prod.mk.injEq] at h
                  rw [← h.2]; rfl
              · rw [if_neg h5] at h
                by_cases h6 : t = "assume"
                · rw [if_pos h6] at h
                  rcases cur with _ | keys
                  · simp at h
                  · simp only [Except.ok.injEq, Prod.mk.injEq] at h
                    rw [← h.2]; rfl
                · rw [if_neg h6] at h
                  simp at h

theorem minFold_append (fs : Option Nat) (l1 l2 : List Nat) :
    minFold fs (l1 ++ l2) = minFold (minFold fs l1) l2 := by
  simp [minFold, List.foldl_append]

theorem parseFileGo_final_start (n : Nat) (fn : String) :
    ∀ (lines : List String) (ln : Nat) (cur : Option (List ConstrKey))
      (db db2 : ConstrDB),
      parseFileGo n fn lines ln cur db = Except.ok db2 →
      db2.final_start = minFold db.final_start (finalDirectiveVals lines) := by
  intro lines
  induction lines with
  | nil =>
      intro ln cur db db2 h
      simp only [parseFileGo, Except.ok.injEq] at h
      rw [← h]
      rfl
  | cons line rest ih =>
      intro ln cur db db2 h
      simp only [parseFileGo] at h
      rcases hline : parseConstrLine n fn ln line cur db with e | p
      · rw [hline] at h; simp at h
      · rw [hline] at h
        obtain ⟨curm, dbm⟩ := p
        have h1 := parseConstrLine_final_start n fn ln line cur db curm dbm hline
        have h2 := ih (ln + 1) curm dbm db2 h
        rw [h2, h1]
        rw [show finalDirectiveVals (line :: rest) =
          (finalValOfLine line).toList ++ finalDirectiveVals rest by
            simp [finalDirectiveVals, List.filterMap_cons]
            cases finalValOfLine line <;> simp]
        rw [minFold_append]

theorem parseAllConstr_final_start (n : Nat) :
    ∀ (files : List (String × List String)) (db db2 : ConstrDB),
      parseAllConstr n files db = Except.ok db2 →
      db2.final_start = minFold db.final_start (finalDirectiveValsAll files) := by
  intro files
  induction files with
  | nil =>
      intro db db2 h
      simp only [parseAllConstr, Except.ok.injEq] at h
      rw [← h]
      rfl
  | cons f rest ih =>
      intro db db2 h
      simp only [parseAllConstr] at h
      rcases hfile : parseConstrFile n f.1 f.2 db with e | dbm
      · rw [hfile] at h; simp at h
      · rw [hfile] at h
        have h1 := parseFileGo_final_start n f.1 f.2 1 none db dbm hfile
        have h2 := ih dbm db2 h
        rw [h2, h1]
        rw [show finalDirectiveValsAll (f :: rest) =
          finalDirectiveVals f.2 ++ finalDirectiveValsAll rest by
            simp [finalDirectiveValsAll]]
        rw [minFold_append]

theorem foldl_min_spec (vals : List Nat) :
    ∀ a, (vals.foldl min a = a ∨ vals.foldl min a ∈ vals) ∧
      vals.foldl min a ≤ a ∧ ∀ v ∈ vals, vals.foldl min a ≤ v := by
  induction vals with
  | nil => intro a; simp
  | cons v rest ih =>
      intro a
      obtain ⟨h1, h2, h3⟩ := ih (min a v)
      simp only [List.foldl_cons, List.mem_cons]
      refine ⟨?_, ?_, ?_⟩
      · rcases h1 with h | h
        · by_cases hav : a ≤ v
          · left; rw [h]; omega
          · right; left; rw [h]; omega
        · right; right; exact h
      · calc rest.foldl min (min a v) ≤ min a v := h2
          _ ≤ a := by omega
      · intro x hx
        rcases hx with rfl | hx
        · calc rest.foldl min (min a x) ≤ min a x := h2
            _ ≤ x := by omega
        · exact h3 x hx

theorem minFold_some_eq (a : Nat) (vals : List Nat) :
    minFold (some a) vals = some (vals.foldl min a) := by
  induction vals generalizing a with
  | nil => rfl
  | cons v rest ih => simp [minFold, minUpd, List.foldl_cons] at ih ⊢; exact ih (min a v)

/-! ### Final-state check gating -/

theorem nfa_not_mem_frameSetup (i a : Nat) :
    SmtCmd.assertNotFinalAsserts i ∉ frameSetup a := by
  by_cases h : a = 0 <;> simp [frameSetup, h]

theorem nfa_not_mem_skipEvents (cfg : BmcCfg) (a i : Nat) :
    SmtCmd.assertNotFinalAsserts i ∉ skipEvents cfg a := by
  cases h : cfg.assume_skipped with
  | none => simp [skipEvents, h]
  | some K => by_cases h2 : K ≤ a <;> simp [skipEvents, h, h2]

theorem nfa_not_mem_extendAux (cfg : BmcCfg) (step i : Nat) (n : Nat) :
    ∀ j last, SmtCmd.assertNotFinalAsserts i ∉ (extendAux cfg step j n last).1 := by
  induction n with
  | zero => intro j last; simp [extendAux]
  | succ m ih =>
      intro j last
      by_cases h : step + j < cfg.num_steps
      · simp [extendAux, h, extFrame, ih]
      · simp [extendAux, h, ih]

theorem nfa_not_mem_commitAsserts (i : Nat) (n : Nat) :
    ∀ lo, SmtCmd.assertNotFinalAsserts i ∉ commitAsserts lo n := by
  induction n with
  | zero => intro lo; simp [commitAsserts]
  | succ m ih => intro lo; simp [commitAsserts, ih]

theorem nfa_not_mem_failedAssertsRange (i : Nat) (n : Nat) :
    ∀ lo, SmtCmd.assertNotFinalAsserts i ∉ failedAssertsRange lo n := by
  induction n with
  | zero => intro lo; simp [failedAssertsRange]
  | succ m ih => intro lo; simp [failedAssertsRange, ih]

theorem nfa_not_mem_oblPass (i lo hi : Nat) (ans : String) :
    SmtCmd.assertNotFinalAsserts i ∉ oblPass lo hi ans := by simp [oblPass]

theorem nfa_not_mem_oblFail (i lo hi : Nat) (ans : String) :
    SmtCmd.assertNotFinalAsserts i ∉ oblFail lo hi ans := by
  simp [oblFail, nfa_not_mem_failedAssertsRange]

theorem nfa_mem_finalLoop_bound (fs : Nat) (oracle : Nat → String) (n : Nat) :
    ∀ lo k i, SmtCmd.assertNotFinalAsserts i ∈ (finalLoop fs oracle lo n k).1 →
      fs ≤ i := by
  induction n with
  | zero => intro lo k i h; simp [finalLoop] at h
  | succ m ih =>
      intro lo k i h
      by_cases h1 : lo < fs
      · simp only [finalLoop, h1, if_pos] at h
        exact ih (lo + 1) k i h
      · by_cases h2 : oracle k = "sat"
        · simp [finalLoop, h1, h2, finalFail] at h
          omega
        · rw [finalLoop_eq_pass fs oracle lo m k h1 h2] at h
          simp [finalPass] at h
          rcases h with rfl | h
          · omega
          · exact ih (lo + 1) (k + 1) i h

theorem nfa_mem_finalLoop_pos (fs : Nat) (oracle : Nat → String)
    (hns : ∀ j, oracle j ≠ "sat") (n : Nat) :
    ∀ lo k i, lo ≤ i → i < lo + n → fs ≤ i →
      SmtCmd.assertNotFinalAsserts i ∈ (finalLoop fs oracle lo n k).1 := by
  induction n with
  | zero => intro lo k i h1 h2 h3; omega
  | succ m ih =>
      intro lo k i h1 h2 h3
      by_cases hlo : lo < fs
      · simp only [finalLoop, hlo, if_pos]
        exact ih (lo + 1) k i (by omega) (by omega) h3
      · rw [finalLoop_eq_pass fs oracle lo m k hlo (hns k)]
        rcases Nat.eq_or_lt_of_le h1 with rfl | hlt
        · simp [finalPass]
        · apply List.mem_append_right
          exact ih (lo + 1) (k + 1) i (by omega) (by omega) h3

theorem nfa_mem_bmcAfterObl_bound (cfg : BmcCfg) (oracle : Nat → String)
    (step last k : Nat) (pre : List SmtCmd) (i : Nat)
    (hpre : SmtCmd.assertNotFinalAsserts i ∉ pre)
    (hmem : SmtCmd.assertNotFinalAsserts i ∈ (bmcAfterObl cfg oracle step last k pre).events) :
    ∃ f, cfg.constr_final_start = some f ∧ f ≤ i := by
  cases hfs : cfg.constr_final_start with
  | none =>
      simp [bmcAfterObl, hfs, hpre, nfa_not_mem_commitAsserts] at hmem
  | some fs =>
      refine ⟨fs, rfl, ?_⟩
      simp only [bmcAfterObl, hfs] at hmem
      simp [hpre, nfa_not_mem_commitAsserts] at hmem
      exact nfa_mem_finalLoop_bound fs oracle (last + 1 - step) step k i hmem

theorem nfa_mem_bmcIter_bound (cfg : BmcCfg) (oracle : Nat → String) (c k i : Nat)
    (hmem : SmtCmd.assertNotFinalAsserts i ∈ (bmcIter cfg oracle c k).events) :
    ∃ f, cfg.constr_final_start = some f ∧ f ≤ i := by
  by_cases hskip : c < cfg.skip_steps
  · rw [bmcIter_skip_events cfg oracle c k hskip] at hmem
    simp [nfa_not_mem_frameSetup, nfa_not_mem_skipEvents] at hmem
  · by_cases hg : cfg.gentrace
    · by_cases hs : oracle k = "sat"
      · rw [bmcIter_eq_gentrace_sat cfg oracle c k hskip hg hs] at hmem
        by_cases hd : cfg.dumpall <;>
          simp [hd, nfa_not_mem_frameSetup, extendWindow, nfa_not_mem_extendAux,
                nfa_not_mem_commitAsserts] at hmem
      · rw [bmcIter_eq_gentrace_fail cfg oracle c k hskip hg hs] at hmem
        simp [nfa_not_mem_frameSetup, extendWindow, nfa_not_mem_extendAux,
              nfa_not_mem_commitAsserts] at hmem
    · have hg2 : cfg.gentrace = false := by simpa using hg
      by_cases hf : cfg.final_only
      · rw [bmcIter_eq_final_only cfg oracle c k hskip hg2 hf] at hmem
        exact nfa_mem_bmcAfterObl_bound cfg oracle c (extendWindow cfg c).2 k _ i
          (by simp [nfa_not_mem_frameSetup, extendWindow, nfa_not_mem_extendAux]) hmem
      · have hf2 : cfg.final_only = false := by simpa using hf
        by_cases hs : oracle k = "sat"
        · rw [bmcIter_eq_obl_fail cfg oracle c k hskip hg2 hf2 hs] at hmem
          simp [nfa_not_mem_frameSetup, extendWindow, nfa_not_mem_extendAux,
                nfa_not_mem_oblFail] at hmem
        · rw [bmcIter_eq_obl_pass cfg oracle c k hskip hg2 hf2 hs] at hmem
          exact nfa_mem_bmcAfterObl_bound cfg oracle c (extendWindow cfg c).2 (k + 1) _ i
            (by simp [nfa_not_mem_frameSetup, extendWindow, nfa_not_mem_extendAux,
                      nfa_not_mem_oblPass]) hmem

theorem nfa_mem_bmcLoop_bound (cfg : BmcCfg) (oracle : Nat → String) (fuel : Nat) :
    ∀ c k i, SmtCmd.assertNotFinalAsserts i ∈ (bmcLoop cfg oracle fuel c k).events →
      ∃ f, cfg.constr_final_start = some f ∧ f ≤ i := by
  induction fuel with
  | zero => intro c k i h; simp [bmcLoop] at h
  | succ m ih =>
      intro c k i hmem
      by_cases hlt : c < cfg.num_steps
      · by_cases hok : (bmcIter cfg oracle c k).ok
        · rw [bmcLoop_succ_ok_events cfg oracle m c k hlt hok] at hmem
          rcases List.mem_append.mp hmem with h1 | h2
          · exact nfa_mem_bmcIter_bound cfg oracle c k i h1
          · exact ih _ _ i h2
        · have hkf : (bmcIter cfg oracle c k).ok = false := by simpa using hok
          rw [bmcLoop_succ_fail_events cfg oracle m c k hlt hkf] at hmem
          exact nfa_mem_bmcIter_bound cfg oracle c k i hmem
      · rw [bmcLoop_stop_events cfg oracle m c k hlt] at hmem
        simp at hmem

theorem nfa_mem_bmcLoop_pos (cfg : BmcCfg) (oracle : Nat → String) (fs : Nat)
    (hfs : cfg.constr_final_start = some fs) (hg : cfg.gentrace = false)
    (hskip : cfg.skip_steps = 0) (hK : 1 ≤ cfg.step_size)
    (hns : ∀ j, oracle j ≠ "sat") (fuel : Nat) :
    ∀ c k i, c ≤ i → i < cfg.num_steps → fs ≤ i → cfg.num_steps - c ≤ fuel →
      SmtCmd.assertNotFinalAsserts i ∈ (bmcLoop cfg oracle fuel c k).events := by
  induction fuel with
  | zero => intro c k i h1 h2 h3 h4; omega
  | succ m ih =>
      intro c k i h1 h2 h3 h4
      have hlt : c < cfg.num_steps := by omega
      have hnskip : ¬ c < cfg.skip_steps := by omega
      have hok : (bmcIter cfg oracle c k).ok = true :=
        bmcIter_ok_of_no_sat cfg oracle c k hg hns
      rw [bmcLoop_succ_ok_events cfg oracle m c k hlt hok]
      have hlast : (extendWindow cfg c).2 = min (c + cfg.step_size - 1) (cfg.num_steps - 1) :=
        extendWindow_last cfg c hlt hK
      by_cases hcov : i ≤ (extendWindow cfg c).2
      · apply List.mem_append_left
        have hinloop : SmtCmd.assertNotFinalAsserts i ∈
            (finalLoop fs oracle c ((extendWindow cfg c).2 + 1 - c) k).1 ∨
            SmtCmd.assertNotFinalAsserts i ∈
            (finalLoop fs oracle c ((extendWindow cfg c).2 + 1 - c) (k + 1)).1 := by
          right
          exact nfa_mem_finalLoop_pos fs oracle hns _ c (k + 1) i h1 (by omega) h3
        by_cases hf : cfg.final_only
        · rw [bmcIter_eq_final_only cfg oracle c k hnskip hg hf]
          simp only [bmcAfterObl, hfs]
          apply List.mem_append_right
          exact nfa_mem_finalLoop_pos fs oracle hns _ c k i h1 (by omega) h3
        · have hf2 : cfg.final_only = false := by simpa using hf
          rw [bmcIter_eq_obl_pass cfg oracle c k hnskip hg hf2 (hns k)]
          simp only [bmcAfterObl, hfs]
          apply List.mem_append_right
          exact nfa_mem_finalLoop_pos fs oracle hns _ c (k + 1) i h1 (by omega) h3
      · apply List.mem_append_right
        have hnext : (bmcIter cfg oracle c k).next = c + cfg.step_size := by
          by_cases hf : cfg.final_only
          · rw [bmcIter_eq_final_only cfg oracle c k hnskip hg hf, bmcAfterObl_next]
          · exact bmcIter_obl_pass_next cfg oracle c k hnskip hg (by simpa using hf) (hns k)
        rw [hnext]
        exact ih (c + cfg.step_size) _ i (by omega) h2 h3 (by omega)

/-- Claim C6: `constr_final_start` is accumulated by the constraint parser as
the minimum over all `final` directives (0 for a bare `final`, line 173; k for
`final -k`, line 178), and the driver checks the final-state obligation of a
step `i` exactly when `i ≥ constr_final_start` (the `continue` of lines
632-633): in any run a final check at `i` implies `constr_final_start` is set
and at most `i`, and in a completed non-gentrace BMC run every step
`constr_final_start ≤ i < num_steps` receives its final check. -/
theorem final_start_accumulation_and_gating (n : Nat)
    (files : List (String × List String)) (db : ConstrDB) (cfg : BmcCfg)
    (oracle : Nat → String) (fuel i fs : Nat) :
    (parseAllConstr n files dbEmpty = Except.ok db →
      ((db.final_start = none ↔ finalDirectiveValsAll files = []) ∧
       (∀ m, db.final_start = some m →
         m ∈ finalDirectiveValsAll files ∧ ∀ v ∈ finalDirectiveValsAll files, m ≤ v))) ∧
    (SmtCmd.assertNotFinalAsserts i ∈ (bmcRun cfg oracle fuel).events →
      ∃ f, cfg.constr_final_start = some f ∧ f ≤ i) ∧
    (cfg.constr_final_start = some fs → cfg.gentrace = false → cfg.skip_steps = 0 →
      1 ≤ cfg.step_size → (∀ j, oracle j ≠ "sat") → fs ≤ i → i < cfg.num_steps →
      cfg.num_steps ≤ fuel →
      SmtCmd.assertNotFinalAsserts i ∈ (bmcRun cfg oracle fuel).events) := by
  refine ⟨?_, ?_, ?_⟩
  · intro hparse
    have hmin := parseAllConstr_final_start n files dbEmpty db hparse
    rcases hvals : finalDirectiveValsAll files with _ | ⟨v, rest⟩
    · rw [hvals] at hmin
      simp only [minFold, dbEmpty] at hmin
      simp [hmin]
    · rw [hvals] at hmin
      have hsome : db.final_start = some (rest.foldl min v) := by
        rw [hmin]
        show minFold (minUpd none v) rest = _
        simp only [minUpd]
        exact minFold_some_eq v rest
      constructor
      · simp [hsome]
      · intro m hm
        rw [hsome] at hm
        injection hm with hm
        obtain ⟨hmem, hle, hall⟩ := foldl_min_spec rest v
        subst hm
        constructor
        · rcases hmem with h | h
          · rw [h]; simp
          · simp [h]
        · intro x hx
          rcases List.mem_cons.mp hx with rfl | hx
          · exact hle
          · exact hall x hx
  · intro hmem
    have hl : SmtCmd.assertNotFinalAsserts i ∈ (bmcLoop cfg oracle fuel 0 0).events := by
      by_cases hg : cfg.gentrace
      · simp [bmcRun, hg] at hmem
        exact hmem
      · simpa [bmcRun, hg] using hmem
    exact nfa_mem_bmcLoop_bound cfg oracle fuel 0 0 i hl
  · intro hfs hg hskip hK hns h1 h2 h3
    have hl := nfa_mem_bmcLoop_pos cfg oracle fs hfs hg hskip hK hns fuel 0 0 i
      (by omega) h2 h1 (by omega)
    simp [bmcRun, hg]
    exact hl

theorem final_start_accumulation_and_gating_witness :
    SmtCmd.assertNotFinalAsserts 2 ∈
      (bmcRun ⟨0, 1, 3, none, false, false, false, some 1⟩ (fun _ => "unsat") 3).events ∧
    (2 : Nat) ∈ finalDirectiveValsAll [("c.smtc", ["final -2"])] :=
  ⟨(final_start_accumulation_and_gating 5 [("c.smtc", ["final -2"])]
      ⟨some 2, [], []⟩ ⟨0, 1, 3, none, false, false, false, some 1⟩
      (fun _ => "unsat") 3 2 1).2.2 rfl rfl rfl (by decide) (fun j => by simp)
      (by decide) (by decide) (by decide),
   ((final_start_accumulation_and_gating 5 [("c.smtc", ["final -2"])]
      ⟨some 2, [], []⟩ ⟨0, 1, 3, none, false, false, false, some 1⟩
      (fun _ => "unsat") 3 2 1).1 (by rfl)).2 2 rfl |>.1⟩
